import Mathlib

/-!
Verification of the batched background-migration engine
(`BatchedMigrationsRunner` and its collaborators).

The data model and the operations below are a shallow embedding of the
TypeScript sources: pure computations become Lean functions, the mutable
runner/database state is passed explicitly, thrown errors become an
`Except` result, and the observable side effects of a call (lock
acquisition and release, batch execution, status updates, emitted error
events) are returned as an explicit list of events.

Components whose implementation lives outside the sources at hand (the
batch runner itself and the record-store primitives) are modelled from
the specification; each such definition carries a doc comment starting
with `Modelled from the spec:`.
-/

deriving instance DecidableEq for Except

/-! ## Data model -/

/-- Status of a batched migration record (column `status` of the
`batched_migrations` table). -/
inductive BatchedMigrationStatus where
  | pending
  | running
  | paused
  | finalizing
  | succeeded
  | failed
deriving DecidableEq, Repr

/-- One row of the `batched_migrations` table. The `cursor` is the
high-water mark of the last completed work unit; it conceptually starts
at `min_value - 1`. -/
structure BatchedMigrationRow where
  id : Nat
  project : String
  filename : String
  timestamp : String
  batch_size : Int
  min_value : Int
  max_value : Int
  cursor : Int
  status : BatchedMigrationStatus
deriving DecidableEq, Repr

/-- A migration definition file discovered on disk, keyed by its
14-character timestamp. -/
structure MigrationFile where
  directory : String
  filename : String
  timestamp : String
deriving DecidableEq, Repr

/-- The result of `getParameters()` of a migration definition. A `none`
for `max` models the `null`/absent case that signals "no work". -/
structure MigrationParameters where
  min : Option Int
  max : Option Int
  batchSize : Option Int
deriving DecidableEq, Repr

/-- A user-authored migration definition: its parameters together with
the behaviour of its `runBatch` function, abstracted to whether the
batch over an inclusive range succeeds. -/
structure BatchedMigration where
  parameters : MigrationParameters
  batchOk : Int → Int → Bool

/-- The registry of migration definitions reachable from this process,
keyed by timestamp (the dynamic module loading, abstracted). -/
abbrev MigrationDefs := String → Option BatchedMigration

/-- Errors thrown by the engine. -/
inductive MigrationError where
  | noMigrationFound (identifier : String)
  | notFound
  | duplicateKey
  | invalidMigrationClass
  | batchFailure
  | notSucceeded (status : BatchedMigrationStatus)
  | notInitialized
  | alreadyInitialized
  | alreadyRunning
deriving DecidableEq, Repr

/-- Observable side effects of a call. -/
inductive Event where
  | runBatch (project timestamp : String) (lo hi : Int)
  | updateStatus (id : Nat) (status : BatchedMigrationStatus)
  | emitError (e : MigrationError)
  | lockAcquire (name : String)
  | lockRelease (name : String)
deriving DecidableEq, Repr

/-- Whether an event is a distributed-lock acquisition. -/
def Event.isLockAcquire : Event → Bool
  | .lockAcquire _ => true
  | _ => false

/-- Whether an event is an invocation of a migration's batch function. -/
def Event.isRunBatch : Event → Bool
  | .runBatch _ _ _ _ => true
  | _ => false

/-- The mutable state of one `BatchedMigrationsRunner` instance together
with the shared `batched_migrations` table it operates on. -/
structure RunnerState where
  project : String
  migrationFiles : List MigrationFile
  running : Bool
  aborted : Bool
  db : List BatchedMigrationRow
deriving DecidableEq, Repr

/-! ## Record store operations -/

/-- Fresh id for an inserted row: one more than the largest id in use. -/
def nextId (db : List BatchedMigrationRow) : Nat :=
  (db.map (fun r => r.id)).foldr Nat.max 0 + 1

/-- The `insert_batched_migration` SQL block: it inserts only the
project, filename, timestamp, batch size and range bounds. The block
has no status column, so the status the caller supplies is discarded
and the created row carries the status column's table default.
Modelled from the spec: the duplicate-key failure on
`(project, timestamp)` and the cursor starting just before the range
(sections 4.2 and 3), and the table default for the status column,
taken as `pending` because the schema itself is not among the sources
and the lifecycle of section 2 creates records in `pending`. -/
def insertBatchedMigration (db : List BatchedMigrationRow)
    (project filename timestamp : String)
    (batch_size min_value max_value : Int)
    (_status : BatchedMigrationStatus) :
    Except MigrationError (List BatchedMigrationRow) :=
  if db.any (fun r => r.project == project && r.timestamp == timestamp) then
    .error .duplicateKey
  else
    .ok (db ++ [{ id := nextId db, project, filename, timestamp,
                  batch_size, min_value, max_value,
                  cursor := min_value - 1, status := .pending }])

/-- Modelled from the spec: `selectForTimestamp(project, timestamp)` of
the Migration Record Store; fails with `NotFound` if absent. -/
def selectBatchedMigrationForTimestamp (db : List BatchedMigrationRow)
    (project timestamp : String) : Except MigrationError BatchedMigrationRow :=
  match db.find? (fun r => r.project == project && r.timestamp == timestamp) with
  | none => .error .notFound
  | some r => .ok r

/-- The `update_batched_migration_status` SQL block: set the status of
the row with the given id. The updated row is returned alongside in the
callers that need it. -/
def updateBatchedMigrationStatus (db : List BatchedMigrationRow)
    (id : Nat) (status : BatchedMigrationStatus) : List BatchedMigrationRow :=
  db.map (fun r => if r.id == id then { r with status := status } else r)

/-- Persist an updated row (cursor and status advancement performed by
the batch runner), keyed by id. -/
def persistRow (db : List BatchedMigrationRow)
    (row : BatchedMigrationRow) : List BatchedMigrationRow :=
  db.map (fun r => if r.id == row.id then row else r)

/-- Modelled from the spec: the atomic `selectOrStartRunnableMigration`
claim query. It finds the oldest (lowest id, hence first in insertion
order) migration of the project whose status is `pending` or `running`,
transitions a `pending` match to `running`, and returns it; returns
nothing if no candidate exists. -/
def selectOrStartRunnableMigration (s : RunnerState) :
    Option BatchedMigrationRow × RunnerState :=
  match s.db.find? (fun r => r.project == s.project &&
      (r.status == .pending || r.status == .running)) with
  | none => (none, s)
  | some r =>
    if r.status == .pending then
      let updated := { r with status := .running }
      (some updated, { s with db := persistRow s.db updated })
    else
      (some r, s)

/-! ## Identifier handling and lock names -/

/-- The leading component of an identifier before the first underscore,
translating `identifier.split('_')[0]`. -/
def timestampOf (identifier : String) : String :=
  String.mk (identifier.toList.takeWhile (fun c => c ≠ '_'))

/-- Name of the distributed lock guarding one migration. -/
def lockNameForTimestamp (project timestamp : String) : String :=
  "batched-migrations:" ++ project ++ ":" ++ timestamp

/-- Resolve the migration definition file whose timestamp matches the
identifier's leading timestamp, or `none` if this process does not know
that migration. -/
def getMigrationForIdentifier (s : RunnerState) (identifier : String) :
    Option MigrationFile :=
  s.migrationFiles.find? (fun m => m.timestamp == timestampOf identifier)

/-! ## The batch runner -/

/-- Result of driving one migration with the batch runner: whether a
batch function invocation failed, the resulting row (cursor and status
advanced), and the emitted events. -/
structure RunResult where
  failed : Bool
  row : BatchedMigrationRow
  events : List Event
deriving Repr

/-- Modelled from the spec: the Batch Runner. Starting from the row's
cursor it repeatedly computes the next subrange
`[cursor + 1, min (cursor + batch_size) max_value]`, invokes the batch
function on it, and persists the new cursor; when the cursor reaches
`max_value` the status becomes `succeeded`. A batch failure stops the
run and is reported through `failed`. The `budget` is the time budget,
counted in remaining batches; `none` means no limit, and an exhausted
budget stops cleanly with the status left untouched. (With a
non-positive batch size and work remaining the real loop would never
terminate; that branch returns the row unchanged and is excluded by the
hypotheses of every theorem below.) -/
def runMigration (m : BatchedMigration) (r : BatchedMigrationRow)
    (budget : Option Nat) : RunResult :=
  if budget = some 0 then ⟨false, r, []⟩
  else if h : r.cursor < r.max_value ∧ 0 < r.batch_size then
    let hi := min (r.cursor + r.batch_size) r.max_value
    if m.batchOk (r.cursor + 1) hi then
      let rest := runMigration m { r with cursor := hi }
        (budget.map (fun n => n - 1))
      ⟨rest.failed, rest.row,
        Event.runBatch r.project r.timestamp (r.cursor + 1) hi :: rest.events⟩
    else ⟨true, r, []⟩
  else if r.max_value ≤ r.cursor then ⟨false, { r with status := .succeeded }, []⟩
  else ⟨false, r, []⟩
termination_by (r.max_value - r.cursor).toNat
decreasing_by
  omega

/-! ## The runner's operations (from the source) -/

/-- The `enqueueBatchedMigration` method: resolve the definition file,
compute the parameters, and insert a new record, `succeeded` immediately
if `max` is null and `pending` otherwise; `min` defaults to 1, the batch
size to 1000, and a null `max` collapses the range to the minimum. -/
def enqueueBatchedMigration (defs : MigrationDefs) (s : RunnerState)
    (identifier : String) : Except MigrationError RunnerState :=
  match getMigrationForIdentifier s identifier with
  | none => .error (.noMigrationFound identifier)
  | some migrationFile =>
    match defs migrationFile.timestamp with
    | none => .error .invalidMigrationClass
    | some migration =>
      let p := migration.parameters
      let status : BatchedMigrationStatus :=
        if p.max = none then .succeeded else .pending
      let minValue := p.min.getD 1
      let maxValue := p.max.getD minValue
      let batchSize := p.batchSize.getD 1000
      match insertBatchedMigration s.db s.project migrationFile.filename
          migrationFile.timestamp batchSize minValue maxValue status with
      | .error e => .error e
      | .ok db => .ok { s with db := db }

/-- The `finalizeBatchedMigration` method: no-op if already succeeded;
otherwise force the status to `finalizing` (skipping the update if
already there), resolve the definition, run the batch runner with no
time limit, re-read the record and require `succeeded`. The returned
triple is the call's outcome, the post-state, and the emitted events. -/
def finalizeBatchedMigration (defs : MigrationDefs) (s : RunnerState)
    (identifier : String) :
    Except MigrationError Unit × RunnerState × List Event :=
  let timestamp := timestampOf identifier
  match selectBatchedMigrationForTimestamp s.db s.project timestamp with
  | .error e => (.error e, s, [])
  | .ok migration₀ =>
    if migration₀.status = .succeeded then (.ok (), s, [])
    else
      let migration :=
        if migration₀.status = .finalizing then migration₀
        else { migration₀ with status := .finalizing }
      let s₁ :=
        if migration₀.status = .finalizing then s
        else { s with db := updateBatchedMigrationStatus s.db migration₀.id .finalizing }
      let evs₁ : List Event :=
        if migration₀.status = .finalizing then []
        else [Event.updateStatus migration₀.id .finalizing]
      match getMigrationForIdentifier s₁ identifier with
      | none => (.error (.noMigrationFound identifier), s₁, evs₁)
      | some migrationFile =>
        match defs migrationFile.timestamp with
        | none => (.error .invalidMigrationClass, s₁, evs₁)
        | some migrationDef =>
          let result := runMigration migrationDef migration none
          let s₂ := { s₁ with db := persistRow s₁.db result.row }
          if result.failed then
            (.error .batchFailure, s₂, evs₁ ++ result.events)
          else
            match selectBatchedMigrationForTimestamp s₂.db s₂.project timestamp with
            | .error e => (.error e, s₂, evs₁ ++ result.events)
            | .ok migration₂ =>
              if migration₂.status = .succeeded then
                (.ok (), s₂, evs₁ ++ result.events)
              else
                (.error (.notSucceeded migration₂.status), s₂, evs₁ ++ result.events)

/-- The `maybePerformWork` method: claim a runnable migration; if none,
or if this process does not know its definition file, report no work.
Otherwise try the migration's named lock; if unavailable (`lockAvailable
= false`) this round is also treated as no work. With the lock held, run
the batch runner under the round's budget, emitting any batch failure as
an error event; the lock is released on exit either way. -/
def maybePerformWork (defs : MigrationDefs) (s : RunnerState)
    (lockAvailable : Bool) (budget : Option Nat) :
    Except MigrationError Bool × RunnerState × List Event :=
  match selectOrStartRunnableMigration s with
  | (none, s₁) => (.ok false, s₁, [])
  | (some migration, s₁) =>
    match getMigrationForIdentifier s₁ migration.timestamp with
    | none => (.ok false, s₁, [])
    | some migrationFile =>
      if lockAvailable then
        let lockName := lockNameForTimestamp s₁.project migrationFile.timestamp
        match defs migrationFile.timestamp with
        | none =>
          (.error .invalidMigrationClass, s₁,
            [Event.lockAcquire lockName, Event.lockRelease lockName])
        | some migrationDef =>
          let result := runMigration migrationDef migration budget
          let s₂ := { s₁ with db := persistRow s₁.db result.row }
          let errEvents : List Event :=
            if result.failed then [Event.emitError .batchFailure] else []
          (.ok true, s₂,
            Event.lockAcquire lockName ::
              (result.events ++ errEvents ++ [Event.lockRelease lockName]))
      else (.ok false, s₁, [])

/-! ## The scheduling loop -/

/-- Phase of the per-process scheduling loop state machine. -/
inductive LoopPhase where
  | idle
  | atTop
  | working
  | sleeping
  | exited
deriving DecidableEq, Repr

/-- State of the scheduling loop together with the runner it drives. -/
structure LoopState where
  phase : LoopPhase
  rs : RunnerState
deriving DecidableEq, Repr

/-- One round of the loop body: perform work, emitting any error raised
during the round as an error event; if the round did productive work the
loop polls again immediately, otherwise it sleeps. -/
def loopRound (defs : MigrationDefs) (rs : RunnerState)
    (lockAvailable : Bool) (budget : Option Nat) :
    RunnerState × List Event × LoopPhase :=
  match maybePerformWork defs rs lockAvailable budget with
  | (.ok true, rs₁, evs) => (rs₁, evs, .atTop)
  | (.ok false, rs₁, evs) => (rs₁, evs, .sleeping)
  | (.error e, rs₁, evs) => (rs₁, evs ++ [Event.emitError e], .sleeping)

/-- Small-step semantics of the scheduling loop (the `loop` method),
interleaved with the cancellation signal of `stop`. `start` enters the
loop and raises the running flag; at the top of each iteration the abort
signal is checked and, if set, the loop clears the running flag and
exits; otherwise a round of work runs; an unproductive round sleeps, and
the sleep wakes (by timeout or by the abort signal). `signalStop` is the
`abortController.abort()` performed by `stop`, possible at any time. -/
inductive LoopStep (defs : MigrationDefs) : LoopState → List Event → LoopState → Prop
  | start (s : LoopState) :
      (s.phase = .idle ∨ s.phase = .exited) → s.rs.running = false →
      LoopStep defs s [] ⟨.atTop, { s.rs with running := true }⟩
  | abortExit (s : LoopState) :
      s.phase = .atTop → s.rs.aborted = true →
      LoopStep defs s [] ⟨.exited, { s.rs with running := false }⟩
  | enterWork (s : LoopState) :
      s.phase = .atTop → s.rs.aborted = false →
      LoopStep defs s [] ⟨.working, s.rs⟩
  | work (s : LoopState) (lockAvailable : Bool) (budget : Option Nat) :
      s.phase = .working →
      LoopStep defs s (loopRound defs s.rs lockAvailable budget).2.1
        ⟨(loopRound defs s.rs lockAvailable budget).2.2,
          (loopRound defs s.rs lockAvailable budget).1⟩
  | wake (s : LoopState) :
      s.phase = .sleeping →
      LoopStep defs s [] ⟨.atTop, s.rs⟩
  | signalStop (s : LoopState) :
      LoopStep defs s [] ⟨s.phase, { s.rs with aborted := true }⟩

/-- Reflexive-transitive closure of `LoopStep`, accumulating events. -/
inductive LoopSteps (defs : MigrationDefs) : LoopState → List Event → LoopState → Prop
  | refl (s : LoopState) : LoopSteps defs s [] s
  | tail (s₁ : LoopState) (evs : List Event) (s₂ : LoopState)
      (evs' : List Event) (s₃ : LoopState) :
      LoopSteps defs s₁ evs s₂ → LoopStep defs s₂ evs' s₃ →
      LoopSteps defs s₁ (evs ++ evs') s₃

/-- Coherence of the running flag with the loop phase: the flag is
raised exactly while the loop body is executing. -/
def LoopInv (s : LoopState) : Prop :=
  s.rs.running = true ↔
    (s.phase = .atTop ∨ s.phase = .working ∨ s.phase = .sleeping)

instance (s : LoopState) : Decidable (LoopInv s) := by
  unfold LoopInv; infer_instance

/-- The condition under which `stop()` has returned to its caller: it
aborts the signal and then spins (sleeping between polls) until the
running flag is observed clear. -/
def stopReturned (s : LoopState) : Prop :=
  s.rs.aborted = true ∧ s.rs.running = false

instance (s : LoopState) : Decidable (stopReturned s) := by
  unfold stopReturned; infer_instance

/-! ## The module-level control surface -/

/-- The process-wide singleton holding at most one runner. -/
structure ModuleState where
  runner : Option RunnerState
deriving DecidableEq, Repr

/-- The `assertRunner` guard: fail unless a runner is initialized. -/
def assertRunner (runner : Option RunnerState) :
    Except MigrationError RunnerState :=
  match runner with
  | none => .error .notInitialized
  | some r => .ok r

/-- `initBatchedMigrations`: create the singleton runner; throws if one
is already initialized. -/
def initBatchedMigrations (ms : ModuleState) (project : String)
    (migrationFiles : List MigrationFile) (db : List BatchedMigrationRow) :
    Except MigrationError ModuleState :=
  match ms.runner with
  | some _ => .error .alreadyInitialized
  | none =>
    .ok { runner := some { project := project, migrationFiles := migrationFiles,
                           running := false, aborted := false, db := db } }

/-- The `start` method: throws if the loop is already running, otherwise
the loop begins and raises the running flag. -/
def startRunner (s : RunnerState) : Except MigrationError RunnerState :=
  if s.running then .error .alreadyRunning
  else .ok { s with running := true }

/-- `startBatchedMigrations`: start the singleton runner's loop. -/
def startBatchedMigrations (ms : ModuleState) :
    Except MigrationError ModuleState :=
  match assertRunner ms.runner with
  | .error e => .error e
  | .ok r =>
    match startRunner r with
    | .error e => .error e
    | .ok r₁ => .ok { runner := some r₁ }

/-- Module-level `enqueueBatchedMigration`: delegate to the singleton. -/
def globalEnqueueBatchedMigration (defs : MigrationDefs) (ms : ModuleState)
    (identifier : String) : Except MigrationError ModuleState :=
  match assertRunner ms.runner with
  | .error e => .error e
  | .ok r =>
    match enqueueBatchedMigration defs r identifier with
    | .error e => .error e
    | .ok r₁ => .ok { runner := some r₁ }

/-- Module-level `finalizeBatchedMigration`: delegate to the singleton. -/
def globalFinalizeBatchedMigration (defs : MigrationDefs) (ms : ModuleState)
    (identifier : String) : Except MigrationError ModuleState :=
  match assertRunner ms.runner with
  | .error e => .error e
  | .ok r =>
    match (finalizeBatchedMigration defs r identifier).1 with
    | .error e => .error e
    | .ok _ => .ok { runner := some (finalizeBatchedMigration defs r identifier).2.1 }

/-- `stopBatchedMigrations`: stop the singleton runner and clear it. -/
def stopBatchedMigrations (ms : ModuleState) :
    Except MigrationError ModuleState :=
  match assertRunner ms.runner with
  | .error e => .error e
  | .ok _ => .ok { runner := none }

/-! ## System steps

One step of the whole system over the runner state: an enqueue call, a
finalize call, or a scheduling round's work, each with its emitted
events. -/

/-- The state an enqueue call leaves behind: the new state on success,
the old state when the call throws. -/
def enqueueResult (defs : MigrationDefs) (s : RunnerState)
    (identifier : String) : RunnerState :=
  match enqueueBatchedMigration defs s identifier with
  | .ok s₁ => s₁
  | .error _ => s

/-- One operation of the system. -/
inductive SysStep (defs : MigrationDefs) : RunnerState → List Event → RunnerState → Prop
  | enqueue (s : RunnerState) (identifier : String) :
      SysStep defs s [] (enqueueResult defs s identifier)
  | finalize (s : RunnerState) (identifier : String) :
      SysStep defs s (finalizeBatchedMigration defs s identifier).2.2
        (finalizeBatchedMigration defs s identifier).2.1
  | maybeWork (s : RunnerState) (lockAvailable : Bool) (budget : Option Nat) :
      SysStep defs s (maybePerformWork defs s lockAvailable budget).2.2
        (maybePerformWork defs s lockAvailable budget).2.1

/-- Reflexive-transitive closure of `SysStep`, accumulating events. -/
inductive SysSteps (defs : MigrationDefs) : RunnerState → List Event → RunnerState → Prop
  | refl (s : RunnerState) : SysSteps defs s [] s
  | tail (s₁ : RunnerState) (evs : List Event) (s₂ : RunnerState)
      (evs' : List Event) (s₃ : RunnerState) :
      SysSteps defs s₁ evs s₂ → SysStep defs s₂ evs' s₃ →
      SysSteps defs s₁ (evs ++ evs') s₃

/-! ## Database well-formedness -/

/-- Two distinct rows never share an id nor a `(project, timestamp)`
key. -/
def RowsCompatible (a b : BatchedMigrationRow) : Prop :=
  a.id ≠ b.id ∧ ¬(a.project = b.project ∧ a.timestamp = b.timestamp)

instance : DecidableRel RowsCompatible := by
  intro a b; unfold RowsCompatible; infer_instance

/-- Well-formedness of the record store: ids are unique and
`(project, timestamp)` is a unique key. -/
def DbWF (db : List BatchedMigrationRow) : Prop :=
  db.Pairwise RowsCompatible

instance (db : List BatchedMigrationRow) : Decidable (DbWF db) := by
  unfold DbWF; infer_instance

/-- Parameters a well-behaved migration definition reports: whenever a
maximum is present it dominates the (defaulted) minimum. -/
def paramsOk (p : MigrationParameters) : Prop :=
  ∀ M : Int, p.max = some M → p.min.getD 1 ≤ M

instance (p : MigrationParameters) : Decidable (paramsOk p) := by
  unfold paramsOk
  cases p.max with
  | none => exact isTrue (by intro M h; cases h)
  | some M =>
    exact decidable_of_iff (p.min.getD 1 ≤ M)
      (by constructor
          · intro h M' hM'; cases hM'; exact h
          · intro h; exact h M rfl)

/-! ## Batch runner lemmas -/

theorem runMigration_fields (m : BatchedMigration) (r : BatchedMigrationRow)
    (budget : Option Nat) :
    (runMigration m r budget).row.id = r.id ∧
    (runMigration m r budget).row.project = r.project ∧
    (runMigration m r budget).row.timestamp = r.timestamp ∧
    (runMigration m r budget).row.batch_size = r.batch_size ∧
    (runMigration m r budget).row.min_value = r.min_value ∧
    (runMigration m r budget).row.max_value = r.max_value := by
  induction r, budget using runMigration.induct m with
  | case1 r =>
    rw [runMigration]; simp
  | case2 r budget hb h hi hok ih =>
    rw [runMigration]
    simp only [if_neg hb, dif_pos h, if_pos hok]
    exact ih
  | case3 r budget hb h hi hok =>
    rw [runMigration]
    simp only [if_neg hb, dif_pos h, if_neg hok]
    simp
  | case4 r budget hb h hle =>
    rw [runMigration]
    simp only [if_neg hb, dif_neg h, if_pos hle]
    simp
  | case5 r budget hb h hle =>
    rw [runMigration]
    simp only [if_neg hb, dif_neg h, if_neg hle]
    simp

theorem runMigration_failed_status (m : BatchedMigration) (r : BatchedMigrationRow)
    (budget : Option Nat) :
    (runMigration m r budget).failed = true →
    (runMigration m r budget).row.status = r.status := by
  induction r, budget using runMigration.induct m with
  | case1 r =>
    rw [runMigration]; simp
  | case2 r budget hb h hi hok ih =>
    rw [runMigration]
    simp only [if_neg hb, dif_pos h, if_pos hok]
    exact ih
  | case3 r budget hb h hi hok =>
    rw [runMigration]
    simp only [if_neg hb, dif_pos h, if_neg hok]
    simp
  | case4 r budget hb h hle =>
    rw [runMigration]
    simp only [if_neg hb, dif_neg h, if_pos hle]
    simp
  | case5 r budget hb h hle =>
    rw [runMigration]
    simp only [if_neg hb, dif_neg h, if_neg hle]
    simp

theorem runMigration_complete (m : BatchedMigration) (r : BatchedMigrationRow)
    (budget : Option Nat) (hbud : budget = none) (hbs : 0 < r.batch_size)
    (hnf : (runMigration m r budget).failed = false) :
    (runMigration m r budget).row.status = .succeeded := by
  revert hbud hbs hnf
  induction r, budget using runMigration.induct m with
  | case1 r =>
    intro hbud _ _
    cases hbud
  | case2 r budget hb h hi hok ih =>
    intro hbud hbs hnf
    rw [runMigration] at hnf ⊢
    simp only [if_neg hb, dif_pos h, if_pos hok] at hnf ⊢
    subst hbud
    exact ih rfl hbs hnf
  | case3 r budget hb h hi hok =>
    intro _ _ hnf
    rw [runMigration] at hnf
    simp only [if_neg hb, dif_pos h, if_neg hok] at hnf
    cases hnf
  | case4 r budget hb h hle =>
    intro _ _ _
    rw [runMigration]
    simp only [if_neg hb, dif_neg h, if_pos hle]
  | case5 r budget hb h hle =>
    intro _ hbs _
    exact absurd ⟨by omega, hbs⟩ h

theorem runMigration_events_shape (m : BatchedMigration) (r : BatchedMigrationRow)
    (budget : Option Nat) :
    ∀ e ∈ (runMigration m r budget).events,
      ∃ lo hi, e = Event.runBatch r.project r.timestamp lo hi := by
  induction r, budget using runMigration.induct m with
  | case1 r =>
    rw [runMigration]; simp
  | case2 r budget hb h hi hok ih =>
    rw [runMigration]
    simp only [if_neg hb, dif_pos h, if_pos hok, List.mem_cons]
    rintro e (rfl | he)
    · exact ⟨_, _, rfl⟩
    · exact ih e he
  | case3 r budget hb h hi hok =>
    rw [runMigration]
    simp only [if_neg hb, dif_pos h, if_neg hok]
    simp
  | case4 r budget hb h hle =>
    rw [runMigration]
    simp only [if_neg hb, dif_neg h, if_pos hle]
    simp
  | case5 r budget hb h hle =>
    rw [runMigration]
    simp only [if_neg hb, dif_neg h, if_neg hle]
    simp

/-- The inclusive subranges on which a run invoked the batch function,
in order of invocation. -/
def batchRanges (evs : List Event) : List (Int × Int) :=
  evs.filterMap (fun e => match e with
    | .runBatch _ _ lo hi => some (lo, hi)
    | _ => none)

theorem runMigration_ranges (m : BatchedMigration) (r : BatchedMigrationRow)
    (budget : Option Nat) (hbud : budget = none) (hbs : 0 < r.batch_size)
    (hok : ∀ lo hi, m.batchOk lo hi = true) :
    (∀ p ∈ batchRanges (runMigration m r budget).events,
        p.2 = min (p.1 - 1 + r.batch_size) r.max_value ∧
        p.1 ≤ p.2 ∧ p.2 - p.1 + 1 ≤ r.batch_size) ∧
    (batchRanges (runMigration m r budget).events).Chain' (fun p q => q.1 = p.2 + 1) ∧
    (∀ q ∈ (batchRanges (runMigration m r budget).events).head?, q.1 = r.cursor + 1) ∧
    (∀ x : Int, ((batchRanges (runMigration m r budget).events).countP
        (fun p => decide (p.1 ≤ x ∧ x ≤ p.2))) =
      if r.cursor < x ∧ x ≤ r.max_value then 1 else 0) := by
  revert hbud hbs
  induction r, budget using runMigration.induct m with
  | case1 r =>
    intro hbud _
    cases hbud
  | case2 r budget hb h hi hok₂ ih =>
    intro hbud hbs
    obtain ⟨ih₁, ih₂, ih₃, ih₄⟩ := ih (by simp [hbud]) hbs
    rw [runMigration]
    simp only [if_neg hb, dif_pos h, if_pos hok₂]
    simp only [batchRanges, List.filterMap_cons] at ih₁ ih₂ ih₃ ih₄ ⊢
    refine ⟨?_, ?_, ?_, ?_⟩
    · intro p hp
      rw [List.mem_cons] at hp
      rcases hp with rfl | hp
      · refine ⟨?_, ?_, ?_⟩ <;> (simp only [min_def]; split_ifs <;> omega)
      · exact ih₁ p hp
    · rw [List.chain'_cons']
      exact ⟨fun q hq => by rw [ih₃ q hq], ih₂⟩
    · intro q hq
      simp only [List.head?_cons, Option.mem_def, Option.some.injEq] at hq
      subst hq
      rfl
    · intro x
      rw [List.countP_cons, ih₄ x]
      simp only [decide_eq_true_eq]
      have hhi : hi = min (r.cursor + r.batch_size) r.max_value := rfl
      rw [hhi]
      simp only [min_def]
      split_ifs <;> omega
  | case3 r budget hb h hi hnot =>
    intro _ _
    exact absurd (hok _ _) hnot
  | case4 r budget hb h hle =>
    intro _ _
    rw [runMigration]
    simp only [if_neg hb, dif_neg h, if_pos hle]
    simp only [batchRanges, List.filterMap_nil]
    refine ⟨by simp, by simp, by simp, ?_⟩
    intro x
    simp only [List.countP_nil]
    split_ifs with hx
    · omega
    · rfl
  | case5 r budget hb h hle =>
    intro _ hbs
    exact absurd ⟨by omega, hbs⟩ h

theorem runMigration_stop (m : BatchedMigration) (r : BatchedMigrationRow) :
    runMigration m r (some 0) = ⟨false, r, []⟩ := by
  rw [runMigration]
  simp

theorem runMigration_step (m : BatchedMigration) (r : BatchedMigrationRow)
    (budget : Option Nat) (hb : budget ≠ some 0)
    (h : r.cursor < r.max_value ∧ 0 < r.batch_size)
    (hok : m.batchOk (r.cursor + 1) (min (r.cursor + r.batch_size) r.max_value) = true) :
    runMigration m r budget =
      ⟨(runMigration m { r with cursor := min (r.cursor + r.batch_size) r.max_value }
          (budget.map (fun n => n - 1))).failed,
        (runMigration m { r with cursor := min (r.cursor + r.batch_size) r.max_value }
          (budget.map (fun n => n - 1))).row,
        Event.runBatch r.project r.timestamp (r.cursor + 1)
            (min (r.cursor + r.batch_size) r.max_value) ::
          (runMigration m { r with cursor := min (r.cursor + r.batch_size) r.max_value }
            (budget.map (fun n => n - 1))).events⟩ := by
  rw [runMigration]
  simp only [if_neg hb, dif_pos h, if_pos hok]

theorem runMigration_fail (m : BatchedMigration) (r : BatchedMigrationRow)
    (budget : Option Nat) (hb : budget ≠ some 0)
    (h : r.cursor < r.max_value ∧ 0 < r.batch_size)
    (hnot : ¬m.batchOk (r.cursor + 1) (min (r.cursor + r.batch_size) r.max_value) = true) :
    runMigration m r budget = ⟨true, r, []⟩ := by
  rw [runMigration]
  simp only [if_neg hb, dif_pos h, if_neg hnot]

theorem runMigration_done (m : BatchedMigration) (r : BatchedMigrationRow)
    (budget : Option Nat) (hb : budget ≠ some 0) (hle : r.max_value ≤ r.cursor) :
    runMigration m r budget = ⟨false, { r with status := .succeeded }, []⟩ := by
  rw [runMigration]
  have h : ¬(r.cursor < r.max_value ∧ 0 < r.batch_size) := by
    intro h
    omega
  simp only [if_neg hb, dif_neg h, if_pos hle]

theorem runMigration_resume (m : BatchedMigration)
    (hok : ∀ lo hi, m.batchOk lo hi = true) (r : BatchedMigrationRow)
    (budget : Option Nat) (hbs : 0 < r.batch_size) :
    (runMigration m r none).events =
      (runMigration m r budget).events ++
        (runMigration m (runMigration m r budget).row none).events := by
  revert hbs
  induction r, budget using runMigration.induct m with
  | case1 r =>
    intro _
    rw [runMigration_stop]
    simp
  | case2 r budget hb h hi hok₂ ih =>
    intro hbs
    rw [runMigration_step m r none (by simp) h (hok _ _),
        runMigration_step m r budget hb h (hok _ _)]
    simp only [Option.map_none, List.cons_append, List.cons.injEq, true_and]
    exact ih hbs
  | case3 r budget hb h hi hnot =>
    intro _
    exact absurd (hok _ _) hnot
  | case4 r budget hb h hle =>
    intro _
    rw [runMigration_done m r budget hb hle,
        runMigration_done m r none (by simp) hle,
        runMigration_done m { r with status := .succeeded } none (by simp) hle]
    rfl
  | case5 r budget hb h hle =>
    intro hbs
    exact absurd ⟨by omega, hbs⟩ h

/-! ## Claims -/

/-- C1: for every migration record with `min_value ≤ max_value`,
invoking the Batch Runner until the migration completes invokes the
batch function on subranges partitioning `[min_value, max_value]`: each
subrange is `[cursor + 1, min (cursor + batch_size) max_value]`, the
subranges are contiguous and non-decreasing, each has size at most
`batch_size`, every unit of the range is covered exactly once, and a
time-boxed run followed by resuming to completion produces exactly the
same sequence of batches as one uninterrupted run. -/
theorem batch_runner_partitions_range (m : BatchedMigration)
    (r : BatchedMigrationRow) (hbs : 0 < r.batch_size)
    (_hrange : r.min_value ≤ r.max_value) (hcursor : r.cursor = r.min_value - 1)
    (hok : ∀ lo hi, m.batchOk lo hi = true) :
    (∀ p ∈ batchRanges (runMigration m r none).events,
        p.2 = min (p.1 - 1 + r.batch_size) r.max_value ∧
        p.1 ≤ p.2 ∧ p.2 - p.1 + 1 ≤ r.batch_size) ∧
    (batchRanges (runMigration m r none).events).Chain' (fun p q => q.1 = p.2 + 1) ∧
    (∀ q ∈ (batchRanges (runMigration m r none).events).head?, q.1 = r.min_value) ∧
    (∀ x : Int, ((batchRanges (runMigration m r none).events).countP
        (fun p => decide (p.1 ≤ x ∧ x ≤ p.2))) =
      if r.min_value ≤ x ∧ x ≤ r.max_value then 1 else 0) ∧
    (∀ budget : Option Nat, (runMigration m r none).events =
        (runMigration m r budget).events ++
          (runMigration m (runMigration m r budget).row none).events) := by
  obtain ⟨h₁, h₂, h₃, h₄⟩ := runMigration_ranges m r none rfl hbs hok
  refine ⟨h₁, h₂, ?_, ?_, fun budget => runMigration_resume m hok r budget hbs⟩
  · intro q hq
    rw [h₃ q hq, hcursor]
    omega
  · intro x
    rw [h₄ x, hcursor]
    congr 1
    simp only [eq_iff_iff]
    constructor <;> (intro hx; constructor <;> omega)

/-- A concrete migration definition, used to instantiate theorems. -/
def exampleMigration : BatchedMigration :=
  ⟨⟨some 1, some 2500, some 1000⟩, fun _ _ => true⟩

/-- A concrete freshly enqueued record for `exampleMigration`. -/
def exampleRow : BatchedMigrationRow :=
  { id := 1, project := "pl", filename := "20230406184103_backfill.ts",
    timestamp := "20230406184103", batch_size := 1000, min_value := 1,
    max_value := 2500, cursor := 0, status := .pending }

/-- Witness for C1: the partition property instantiated at the concrete
migration with range `[1, 2500]` and batch size 1000. -/
theorem batch_runner_partitions_range_witness :
    ((0 : Int) < 1000 ∧ (1 : Int) ≤ 2500 ∧
      exampleRow.cursor = exampleRow.min_value - 1 ∧
      (∀ lo hi, exampleMigration.batchOk lo hi = true)) ∧
    ((∀ p ∈ batchRanges (runMigration exampleMigration exampleRow none).events,
        p.2 = min (p.1 - 1 + 1000) 2500 ∧ p.1 ≤ p.2 ∧ p.2 - p.1 + 1 ≤ 1000) ∧
      (batchRanges (runMigration exampleMigration exampleRow none).events).Chain'
        (fun p q => q.1 = p.2 + 1) ∧
      (∀ q ∈ (batchRanges (runMigration exampleMigration exampleRow none).events).head?,
        q.1 = 1) ∧
      (∀ x : Int, ((batchRanges (runMigration exampleMigration exampleRow none).events).countP
          (fun p => decide (p.1 ≤ x ∧ x ≤ p.2))) =
        if 1 ≤ x ∧ x ≤ 2500 then 1 else 0) ∧
      (∀ budget : Option Nat, (runMigration exampleMigration exampleRow none).events =
          (runMigration exampleMigration exampleRow budget).events ++
            (runMigration exampleMigration
              (runMigration exampleMigration exampleRow budget).row none).events)) := by
  refine ⟨⟨by decide, by decide, rfl, fun _ _ => rfl⟩, ?_⟩
  exact batch_runner_partitions_range exampleMigration exampleRow
    (by decide) (by decide) rfl (fun _ _ => rfl)

/-! ## Record store lemmas -/

theorem rowsCompatible_symm : Symmetric RowsCompatible := by
  intro a b h
  obtain ⟨h₁, h₂⟩ := h
  exact ⟨fun hx => h₁ hx.symm, fun hx => h₂ ⟨hx.1.symm, hx.2.symm⟩⟩

theorem dbwf_unique_id {db : List BatchedMigrationRow} (h : DbWF db)
    {r₁ r₂ : BatchedMigrationRow} (h₁ : r₁ ∈ db) (h₂ : r₂ ∈ db)
    (hid : r₁.id = r₂.id) : r₁ = r₂ := by
  by_contra hne
  exact (h.forall rowsCompatible_symm h₁ h₂ hne).1 hid

theorem dbwf_unique_key {db : List BatchedMigrationRow} (h : DbWF db)
    {r₁ r₂ : BatchedMigrationRow} (h₁ : r₁ ∈ db) (h₂ : r₂ ∈ db)
    (hp : r₁.project = r₂.project) (ht : r₁.timestamp = r₂.timestamp) :
    r₁ = r₂ := by
  by_contra hne
  exact (h.forall rowsCompatible_symm h₁ h₂ hne).2 ⟨hp, ht⟩

/-- Key-preserving row transformations keep the store well formed. -/
theorem dbwf_map {db : List BatchedMigrationRow} (f : BatchedMigrationRow → BatchedMigrationRow)
    (hf : ∀ r ∈ db, (f r).id = r.id ∧ (f r).project = r.project ∧
      (f r).timestamp = r.timestamp)
    (h : DbWF db) : DbWF (db.map f) := by
  rw [DbWF, List.pairwise_map]
  refine h.imp_of_mem ?_
  intro a b ha hb hab
  obtain ⟨ha₁, ha₂, ha₃⟩ := hf a ha
  obtain ⟨hb₁, hb₂, hb₃⟩ := hf b hb
  exact ⟨by rw [ha₁, hb₁]; exact hab.1,
    fun hx => hab.2 ⟨by rw [← ha₂, ← hb₂]; exact hx.1, by rw [← ha₃, ← hb₃]; exact hx.2⟩⟩

theorem find?_congr_mem {α : Type} {p q : α → Bool} :
    ∀ {l : List α}, (∀ a ∈ l, p a = q a) → l.find? p = l.find? q := by
  intro l
  induction l with
  | nil => intro _; rfl
  | cons a l ih =>
    intro h
    have ha := h a (by simp)
    cases hq : q a with
    | true =>
      rw [List.find?_cons_of_pos l (by rw [ha, hq]), List.find?_cons_of_pos l hq]
    | false =>
      rw [List.find?_cons_of_neg l (by rw [ha, hq]; simp),
        List.find?_cons_of_neg l (by rw [hq]; simp)]
      exact ih (fun b hb => h b (by simp [hb]))

/-- Selecting a well-formed store returns the unique matching row. -/
theorem select_of_mem {db : List BatchedMigrationRow} (h : DbWF db)
    {r : BatchedMigrationRow} (hr : r ∈ db) {p ts : String}
    (hp : r.project = p) (ht : r.timestamp = ts) :
    selectBatchedMigrationForTimestamp db p ts = .ok r := by
  rw [selectBatchedMigrationForTimestamp]
  cases hfind : db.find? (fun x => x.project == p && x.timestamp == ts) with
  | none =>
    rw [List.find?_eq_none] at hfind
    exact absurd (by simp [hp, ht]) (hfind r hr)
  | some r' =>
    have hpred := List.find?_some hfind
    simp only [Bool.and_eq_true, beq_iff_eq] at hpred
    have : r' = r := dbwf_unique_key h (List.mem_of_find?_eq_some hfind) hr
      (by rw [hpred.1, hp]) (by rw [hpred.2, ht])
    rw [this]

/-- Selection commutes with key-preserving row transformations. -/
theorem select_map {db : List BatchedMigrationRow}
    (f : BatchedMigrationRow → BatchedMigrationRow)
    (hf : ∀ r ∈ db, (f r).id = r.id ∧ (f r).project = r.project ∧
      (f r).timestamp = r.timestamp)
    {p ts : String} {R : BatchedMigrationRow}
    (hsel : selectBatchedMigrationForTimestamp db p ts = .ok R) :
    selectBatchedMigrationForTimestamp (db.map f) p ts = .ok (f R) := by
  rw [selectBatchedMigrationForTimestamp] at hsel ⊢
  rw [List.find?_map]
  have hcongr : db.find? ((fun x => x.project == p && x.timestamp == ts) ∘ f) =
      db.find? (fun x => x.project == p && x.timestamp == ts) := by
    apply find?_congr_mem
    intro a ha
    obtain ⟨_, h₂, h₃⟩ := hf a ha
    simp [Function.comp, h₂, h₃]
  rw [hcongr]
  cases hfind : db.find? (fun x => x.project == p && x.timestamp == ts) with
  | none => rw [hfind] at hsel; cases hsel
  | some r' =>
    rw [hfind] at hsel
    cases hsel
    rfl

/-- Every id in the store is below the next fresh id. -/
theorem nextId_fresh {db : List BatchedMigrationRow} {r : BatchedMigrationRow}
    (hr : r ∈ db) : r.id ≠ nextId db := by
  have hle : ∀ (l : List Nat) (n : Nat), n ∈ l → n ≤ l.foldr Nat.max 0 := by
    intro l
    induction l with
    | nil => simp
    | cons a l ih =>
      intro n hn
      rw [List.mem_cons] at hn
      rcases hn with rfl | hn
      · simp only [List.foldr_cons]
        exact Nat.le_max_left _ _
      · simp only [List.foldr_cons]
        exact le_trans (ih n hn) (Nat.le_max_right _ _)
  have : r.id ≤ (db.map (fun x => x.id)).foldr Nat.max 0 :=
    hle _ _ (List.mem_map_of_mem _ hr)
  rw [nextId]
  omega

/-! ## Enqueue lemmas -/

/-- Explicit form of a successful enqueue. -/
theorem enqueueBatchedMigration_ok (defs : MigrationDefs) (s : RunnerState)
    (identifier : String) (file : MigrationFile) (md : BatchedMigration)
    (hfile : getMigrationForIdentifier s identifier = some file)
    (hdef : defs file.timestamp = some md)
    (hnodup : s.db.any (fun r => r.project == s.project &&
      r.timestamp == file.timestamp) = false) :
    enqueueBatchedMigration defs s identifier = .ok { s with db := s.db ++
      [{ id := nextId s.db, project := s.project, filename := file.filename,
         timestamp := file.timestamp,
         batch_size := md.parameters.batchSize.getD 1000,
         min_value := md.parameters.min.getD 1,
         max_value := md.parameters.max.getD (md.parameters.min.getD 1),
         cursor := md.parameters.min.getD 1 - 1,
         status := .pending }] } := by
  simp only [enqueueBatchedMigration, hfile, hdef, insertBatchedMigration, hnodup,
    Bool.false_eq_true, if_false]

/-- C8: a record created by enqueue defaults `batch_size` to 1000 and
`min_value` to 1 when the definition's parameters omit them, and stores
exactly the supplied values otherwise, fixed at enqueue time. -/
theorem enqueue_parameter_defaults (defs : MigrationDefs) (s : RunnerState)
    (identifier : String) (file : MigrationFile) (md : BatchedMigration)
    (hfile : getMigrationForIdentifier s identifier = some file)
    (hdef : defs file.timestamp = some md)
    (hnodup : s.db.any (fun r => r.project == s.project &&
      r.timestamp == file.timestamp) = false) :
    ∃ s₁ row, enqueueBatchedMigration defs s identifier = .ok s₁ ∧
      s₁.db = s.db ++ [row] ∧
      (md.parameters.batchSize = none → row.batch_size = 1000) ∧
      (md.parameters.min = none → row.min_value = 1) ∧
      (∀ b, md.parameters.batchSize = some b → row.batch_size = b) ∧
      (∀ mv, md.parameters.min = some mv → row.min_value = mv) ∧
      (∀ M, md.parameters.max = some M → row.max_value = M) := by
  refine ⟨_, _, enqueueBatchedMigration_ok defs s identifier file md hfile hdef hnodup,
    rfl, ?_, ?_, ?_, ?_, ?_⟩
  · intro h; simp [h]
  · intro h; simp [h]
  · intro b h; simp [h]
  · intro mv h; simp [h]
  · intro M h; simp [h]

/-- A concrete definition registry mapping every timestamp to
`exampleMigration`. -/
def exampleDefs : MigrationDefs := fun _ => some exampleMigration

/-- A concrete known migration file. -/
def exampleFile : MigrationFile :=
  ⟨"migrations", "20230406184103_backfill.ts", "20230406184103"⟩

/-- A concrete runner state knowing `exampleFile` over an empty store. -/
def exampleState : RunnerState :=
  { project := "pl", migrationFiles := [exampleFile], running := false,
    aborted := false, db := [] }

/-- Witness for C8 at a concrete enqueue. -/
theorem enqueue_parameter_defaults_witness :
    (getMigrationForIdentifier exampleState "20230406184103_backfill" = some exampleFile ∧
      exampleDefs exampleFile.timestamp = some exampleMigration ∧
      exampleState.db.any (fun r => r.project == exampleState.project &&
        r.timestamp == exampleFile.timestamp) = false) ∧
    (∃ s₁ row, enqueueBatchedMigration exampleDefs exampleState
        "20230406184103_backfill" = .ok s₁ ∧
      s₁.db = exampleState.db ++ [row] ∧
      (exampleMigration.parameters.batchSize = none → row.batch_size = 1000) ∧
      (exampleMigration.parameters.min = none → row.min_value = 1) ∧
      (∀ b, exampleMigration.parameters.batchSize = some b → row.batch_size = b) ∧
      (∀ mv, exampleMigration.parameters.min = some mv → row.min_value = mv) ∧
      (∀ M, exampleMigration.parameters.max = some M → row.max_value = M)) := by
  refine ⟨⟨by decide, rfl, by decide⟩, ?_⟩
  exact enqueue_parameter_defaults exampleDefs exampleState "20230406184103_backfill"
    exampleFile exampleMigration (by decide) rfl (by decide)

/-- Inversion of a successful enqueue: the exact created row. -/
theorem enqueueBatchedMigration_ok_inv {defs : MigrationDefs} {s : RunnerState}
    {identifier : String} {s₁ : RunnerState}
    (h : enqueueBatchedMigration defs s identifier = .ok s₁) :
    ∃ file md,
      getMigrationForIdentifier s identifier = some file ∧
      defs file.timestamp = some md ∧
      (s.db.any (fun r => r.project == s.project &&
        r.timestamp == file.timestamp)) = false ∧
      s₁ = { s with db := s.db ++
        [{ id := nextId s.db, project := s.project, filename := file.filename,
           timestamp := file.timestamp,
           batch_size := md.parameters.batchSize.getD 1000,
           min_value := md.parameters.min.getD 1,
           max_value := md.parameters.max.getD (md.parameters.min.getD 1),
           cursor := md.parameters.min.getD 1 - 1,
           status := .pending }] } := by
  simp only [enqueueBatchedMigration, insertBatchedMigration] at h
  split at h
  · cases h
  next file hfile =>
    split at h
    · cases h
    next md hdef =>
      split at h
      next e hdup =>
        cases h
      next db hdup =>
        split at hdup
        · cases hdup
        next hcond =>
          cases hdup
          cases h
          refine ⟨file, md, hfile, hdef, ?_, rfl⟩
          simpa using hcond

theorem mem_persistRow {db : List BatchedMigrationRow} {row r : BatchedMigrationRow}
    (h : r ∈ persistRow db row) : r = row ∨ r ∈ db := by
  rw [persistRow] at h
  obtain ⟨r₀, hr₀, heq⟩ := List.mem_map.mp h
  by_cases hid : (r₀.id == row.id) = true
  · rw [if_pos hid] at heq
    exact Or.inl heq.symm
  · rw [if_neg hid] at heq
    exact Or.inr (heq ▸ hr₀)

theorem mem_updateStatus {db : List BatchedMigrationRow} {i : Nat}
    {st : BatchedMigrationStatus} {r : BatchedMigrationRow}
    (h : r ∈ updateBatchedMigrationStatus db i st) :
    (∃ r₀ ∈ db, r = { r₀ with status := st }) ∨ r ∈ db := by
  rw [updateBatchedMigrationStatus] at h
  obtain ⟨r₀, hr₀, heq⟩ := List.mem_map.mp h
  by_cases hid : (r₀.id == i) = true
  · rw [if_pos hid] at heq
    exact Or.inl ⟨r₀, hr₀, heq.symm⟩
  · rw [if_neg hid] at heq
    exact Or.inr (heq ▸ hr₀)

/-- The range bounds of every post-state row come from some pre-state
row. -/
def BoundsPreserved (db₁ db₂ : List BatchedMigrationRow) : Prop :=
  ∀ r ∈ db₂, ∃ r₀ ∈ db₁,
    r.min_value = r₀.min_value ∧ r.max_value = r₀.max_value

theorem boundsPreserved_refl (db : List BatchedMigrationRow) :
    BoundsPreserved db db :=
  fun r hr => ⟨r, hr, rfl, rfl⟩

theorem boundsPreserved_updateStatus (db : List BatchedMigrationRow)
    (i : Nat) (st : BatchedMigrationStatus) :
    BoundsPreserved db (updateBatchedMigrationStatus db i st) := by
  intro r hr
  rcases mem_updateStatus hr with ⟨r₀, hr₀, rfl⟩ | hr
  · exact ⟨r₀, hr₀, rfl, rfl⟩
  · exact ⟨r, hr, rfl, rfl⟩

theorem boundsPreserved_trans {db₁ db₂ db₃ : List BatchedMigrationRow}
    (h₁ : BoundsPreserved db₁ db₂) (h₂ : BoundsPreserved db₂ db₃) :
    BoundsPreserved db₁ db₃ := by
  intro r hr
  obtain ⟨r₀, hr₀, e₁, e₂⟩ := h₂ r hr
  obtain ⟨r₁, hr₁, e₃, e₄⟩ := h₁ r₀ hr₀
  exact ⟨r₁, hr₁, by rw [e₁, e₃], by rw [e₂, e₄]⟩

theorem boundsPreserved_persistRow {db₁ db₂ : List BatchedMigrationRow}
    {row : BatchedMigrationRow} (h : BoundsPreserved db₁ db₂)
    (hrow : ∃ r₀ ∈ db₁, row.min_value = r₀.min_value ∧
      row.max_value = r₀.max_value) :
    BoundsPreserved db₁ (persistRow db₂ row) := by
  intro r hr
  rcases mem_persistRow hr with rfl | hr
  · exact hrow
  · exact h r hr

/-- The bounds of the row a run produces come from the row it started
from. -/
theorem runMigration_bounds (m : BatchedMigration) (r : BatchedMigrationRow)
    (budget : Option Nat) {db : List BatchedMigrationRow} (hr : r ∈ db) :
    ∃ r₀ ∈ db, (runMigration m r budget).row.min_value = r₀.min_value ∧
      (runMigration m r budget).row.max_value = r₀.max_value :=
  ⟨r, hr, (runMigration_fields m r budget).2.2.2.2.1,
    (runMigration_fields m r budget).2.2.2.2.2⟩

theorem select_ok_mem {db : List BatchedMigrationRow} {p ts : String}
    {r : BatchedMigrationRow}
    (h : selectBatchedMigrationForTimestamp db p ts = .ok r) :
    r ∈ db ∧ r.project = p ∧ r.timestamp = ts := by
  rw [selectBatchedMigrationForTimestamp] at h
  cases hfind : db.find? (fun x => x.project == p && x.timestamp == ts) with
  | none => rw [hfind] at h; cases h
  | some r' =>
    rw [hfind] at h
    cases h
    have hpred := List.find?_some hfind
    simp only [Bool.and_eq_true, beq_iff_eq] at hpred
    exact ⟨List.mem_of_find?_eq_some hfind, hpred.1, hpred.2⟩

/-- Shape of the claim query's outcome. -/
theorem selectOrStart_shape (s : RunnerState) :
    selectOrStartRunnableMigration s = (none, s) ∨
    ∃ r, r ∈ s.db ∧ r.project = s.project ∧
      ((r.status = .pending ∧ selectOrStartRunnableMigration s =
          (some { r with status := .running },
            { s with db := persistRow s.db { r with status := .running } })) ∨
       (r.status = .running ∧ selectOrStartRunnableMigration s = (some r, s))) := by
  rw [selectOrStartRunnableMigration]
  cases hfind : s.db.find? (fun r => r.project == s.project &&
      (r.status == .pending || r.status == .running)) with
  | none => exact Or.inl rfl
  | some r =>
    have hpred := List.find?_some hfind
    simp only [Bool.and_eq_true, Bool.or_eq_true, beq_iff_eq] at hpred
    refine Or.inr ⟨r, List.mem_of_find?_eq_some hfind, hpred.1, ?_⟩
    rcases hpred.2 with hp | hp
    · exact Or.inl ⟨hp, by simp [hp]⟩
    · exact Or.inr ⟨hp, by simp [hp]⟩

theorem getMigrationForIdentifier_db (s : RunnerState)
    (db : List BatchedMigrationRow) (identifier : String) :
    getMigrationForIdentifier { s with db := db } identifier =
      getMigrationForIdentifier s identifier := rfl

theorem finalizeBatchedMigration_bounds (defs : MigrationDefs) (s : RunnerState)
    (identifier : String) :
    BoundsPreserved s.db (finalizeBatchedMigration defs s identifier).2.1.db := by
  simp only [finalizeBatchedMigration]
  split
  · exact boundsPreserved_refl s.db
  next migration₀ hsel =>
    obtain ⟨hmem, hproj, hts⟩ := select_ok_mem hsel
    split
    · exact boundsPreserved_refl s.db
    next hsucc =>
      by_cases hf : migration₀.status = .finalizing
      · simp only [if_pos hf]
        split
        · exact boundsPreserved_refl s.db
        next migrationFile hfile =>
          split
          · exact boundsPreserved_refl s.db
          next migrationDef hdef =>
            have hpersist : BoundsPreserved s.db
                (persistRow s.db (runMigration migrationDef migration₀ none).row) :=
              boundsPreserved_persistRow (boundsPreserved_refl s.db)
                (runMigration_bounds migrationDef migration₀ none hmem)
            split
            · exact hpersist
            · split
              · exact hpersist
              · split
                · exact hpersist
                · exact hpersist
      · simp only [if_neg hf]
        rw [getMigrationForIdentifier_db]
        have hupd : BoundsPreserved s.db
            (updateBatchedMigrationStatus s.db migration₀.id .finalizing) :=
          boundsPreserved_updateStatus s.db migration₀.id .finalizing
        split
        · exact hupd
        next migrationFile hfile =>
          split
          · exact hupd
          next migrationDef hdef =>
            have hpersist : BoundsPreserved s.db
                (persistRow (updateBatchedMigrationStatus s.db migration₀.id .finalizing)
                  (runMigration migrationDef
                    { migration₀ with status := .finalizing } none).row) :=
              boundsPreserved_persistRow hupd ⟨migration₀, hmem,
                (runMigration_fields migrationDef
                  { migration₀ with status := .finalizing } none).2.2.2.2.1,
                (runMigration_fields migrationDef
                  { migration₀ with status := .finalizing } none).2.2.2.2.2⟩
            split
            · exact hpersist
            · split
              · exact hpersist
              · split
                · exact hpersist
                · exact hpersist

theorem maybePerformWork_bounds (defs : MigrationDefs) (s : RunnerState)
    (lockAvailable : Bool) (budget : Option Nat) :
    BoundsPreserved s.db (maybePerformWork defs s lockAvailable budget).2.1.db := by
  simp only [maybePerformWork]
  split
  next s₁ heq =>
    rcases selectOrStart_shape s with hshape | ⟨r, _, _, hcase⟩
    · rw [heq] at hshape
      injection hshape with h₁ h₂
      rw [h₂]
      exact boundsPreserved_refl s.db
    · rcases hcase with ⟨_, heq₂⟩ | ⟨_, heq₂⟩ <;>
        (rw [heq] at heq₂; simp at heq₂)
  next migration s₁ heq =>
    have hfacts : BoundsPreserved s.db s₁.db ∧
        ∃ r₀ ∈ s.db, migration.min_value = r₀.min_value ∧
          migration.max_value = r₀.max_value := by
      rcases selectOrStart_shape s with hshape | ⟨r, hmem, hproj, hcase⟩
      · rw [heq] at hshape
        simp at hshape
      · rcases hcase with ⟨_, heq₂⟩ | ⟨_, heq₂⟩
        · rw [heq] at heq₂
          injection heq₂ with h₁ h₂
          injection h₁ with h₁
          subst h₁
          subst h₂
          exact ⟨boundsPreserved_persistRow (boundsPreserved_refl s.db)
            ⟨r, hmem, rfl, rfl⟩, ⟨r, hmem, rfl, rfl⟩⟩
        · rw [heq] at heq₂
          injection heq₂ with h₁ h₂
          injection h₁ with h₁
          rw [h₁, h₂]
          exact ⟨boundsPreserved_refl s.db, ⟨r, hmem, rfl, rfl⟩⟩
    obtain ⟨hb₁, r₀, hr₀, hmin, hmax⟩ := hfacts
    split
    · exact hb₁
    next migrationFile hfile =>
      split
      · split
        · exact hb₁
        next migrationDef hdef =>
          exact boundsPreserved_persistRow hb₁ ⟨r₀, hr₀,
            by rw [(runMigration_fields migrationDef migration budget).2.2.2.2.1]; exact hmin,
            by rw [(runMigration_fields migrationDef migration budget).2.2.2.2.2]; exact hmax⟩
      · exact hb₁

theorem sysStep_minmax (defs : MigrationDefs)
    (hdefs : ∀ ts md, defs ts = some md → paramsOk md.parameters)
    {sa : RunnerState} {evs : List Event} {sb : RunnerState}
    (hinv : ∀ r ∈ sa.db, r.min_value ≤ r.max_value)
    (hstep : SysStep defs sa evs sb) :
    ∀ r ∈ sb.db, r.min_value ≤ r.max_value := by
  cases hstep with
  | enqueue identifier =>
    rw [enqueueResult]
    split
    next s₁ h =>
      obtain ⟨file, md, hfile, hdef, hdup, rfl⟩ := enqueueBatchedMigration_ok_inv h
      intro r hr
      simp only [List.mem_append, List.mem_singleton] at hr
      rcases hr with hr | rfl
      · exact hinv r hr
      · show md.parameters.min.getD 1 ≤
          md.parameters.max.getD (md.parameters.min.getD 1)
        cases hmax : md.parameters.max with
        | none => simp
        | some M =>
          have hM := hdefs _ _ hdef M hmax
          simpa using hM
    next e h => exact hinv
  | finalize identifier =>
    intro r hr
    obtain ⟨r₀, hr₀, e₁, e₂⟩ := finalizeBatchedMigration_bounds defs sa identifier r hr
    rw [e₁, e₂]
    exact hinv r₀ hr₀
  | maybeWork lockAvailable budget =>
    intro r hr
    obtain ⟨r₀, hr₀, e₁, e₂⟩ := maybePerformWork_bounds defs sa lockAvailable budget r hr
    rw [e₁, e₂]
    exact hinv r₀ hr₀

/-- C7 (amended): provided every definition visible to the process
reports parameters whose maximum (when present) dominates the defaulted
minimum, every record of the store satisfies `min_value ≤ max_value` at
creation and after every system step — in particular once its status
has left `pending`. Without that proviso the claim fails: see the
counterexample. -/
theorem minmax_invariant (defs : MigrationDefs)
    (hdefs : ∀ ts md, defs ts = some md → paramsOk md.parameters)
    (s : RunnerState) (evs : List Event) (s₂ : RunnerState)
    (hinv : ∀ r ∈ s.db, r.min_value ≤ r.max_value)
    (hsteps : SysSteps defs s evs s₂) :
    ∀ r ∈ s₂.db, r.min_value ≤ r.max_value := by
  induction hsteps with
  | refl => exact hinv
  | tail evs s₂ evs' s₃ hsteps hstep ih =>
    exact sysStep_minmax defs hdefs ih hstep

/-- A migration definition reporting an inverted range (min 10, max 5). -/
def invertedMigration : BatchedMigration :=
  ⟨⟨some 10, some 5, some 1000⟩, fun _ _ => true⟩

/-- Registry mapping every timestamp to `invertedMigration`. -/
def invertedDefs : MigrationDefs := fun _ => some invertedMigration

/-- The record `enqueueBatchedMigration` creates for `invertedMigration`. -/
def invertedRow : BatchedMigrationRow :=
  { id := 1, project := "pl", filename := "20230406184103_backfill.ts",
    timestamp := "20230406184103", batch_size := 1000, min_value := 10,
    max_value := 5, cursor := 9, status := .pending }

/-- C7 counterexample: a definition whose parameters are `min = 10`,
`max = 5` is enqueued without any ordering check, creating a `pending`
record with `min_value > max_value`; the claim query then moves the
record out of `pending` into `running` with the violation intact. -/
theorem enqueue_minmax_counterexample :
    enqueueBatchedMigration invertedDefs exampleState "20230406184103_backfill" =
      .ok { exampleState with db := [invertedRow] } ∧
    invertedRow.status = .pending ∧
    ¬(invertedRow.min_value ≤ invertedRow.max_value) ∧
    selectOrStartRunnableMigration { exampleState with db := [invertedRow] } =
      (some { invertedRow with status := .running },
        { exampleState with db := [{ invertedRow with status := .running }] }) ∧
    ({ invertedRow with status := .running } : BatchedMigrationRow).status ≠ .pending ∧
    ¬(({ invertedRow with status := .running } : BatchedMigrationRow).min_value ≤
      ({ invertedRow with status := .running } : BatchedMigrationRow).max_value) := by
  refine ⟨by decide, rfl, by decide, by decide, by decide, by decide⟩

/-- Witness for C7 (amended) along a one-step trace that enqueues a
well-behaved migration. -/
theorem minmax_invariant_witness :
    ((∀ ts md, exampleDefs ts = some md → paramsOk md.parameters) ∧
      (∀ r ∈ exampleState.db, r.min_value ≤ r.max_value) ∧
      SysSteps exampleDefs exampleState []
        { exampleState with db := [exampleRow] }) ∧
    (∀ r ∈ ({ exampleState with db := [exampleRow] } : RunnerState).db,
      r.min_value ≤ r.max_value) := by
  have hdefs : ∀ ts md, exampleDefs ts = some md → paramsOk md.parameters := by
    intro ts md h
    cases h
    decide
  have hinv : ∀ r ∈ exampleState.db, r.min_value ≤ r.max_value := by
    intro r hr
    simp [exampleState] at hr
  have henq : enqueueResult exampleDefs exampleState "20230406184103_backfill" =
      { exampleState with db := [exampleRow] } := by decide
  have hstep : SysStep exampleDefs exampleState []
      { exampleState with db := [exampleRow] } := by
    have h := @SysStep.enqueue exampleDefs exampleState
      "20230406184103_backfill"
    rwa [henq] at h
  have hsteps : SysSteps exampleDefs exampleState []
      { exampleState with db := [exampleRow] } := by
    have h := SysSteps.tail _ _ _ _ _ (SysSteps.refl exampleState) hstep
    simpa using h
  exact ⟨⟨hdefs, hinv, hsteps⟩,
    minmax_invariant exampleDefs hdefs exampleState [] _ hinv hsteps⟩

/-- C10: the module-level control surface is guarded by the process-wide
singleton: enqueue, finalize, start and stop all throw when no runner is
initialized (also right after `stopBatchedMigrations` cleared it), init
throws when a runner already exists, and `start` throws while the loop
is already running. -/
theorem module_singleton_guards (defs : MigrationDefs)
    (identifier project : String) (files : List MigrationFile)
    (db : List BatchedMigrationRow) (rs : RunnerState) :
    globalEnqueueBatchedMigration defs { runner := none } identifier =
      .error .notInitialized ∧
    globalFinalizeBatchedMigration defs { runner := none } identifier =
      .error .notInitialized ∧
    startBatchedMigrations { runner := none } = .error .notInitialized ∧
    stopBatchedMigrations { runner := none } = .error .notInitialized ∧
    initBatchedMigrations { runner := some rs } project files db =
      .error .alreadyInitialized ∧
    initBatchedMigrations { runner := none } project files db =
      .ok { runner := some { project := project,
                             migrationFiles := files,
                             running := false,
                             aborted := false,
                             db := db } } ∧
    stopBatchedMigrations { runner := some rs } = .ok { runner := none } ∧
    startBatchedMigrations { runner := some { rs with running := true } } =
      .error .alreadyRunning :=
  ⟨rfl, rfl, rfl, rfl, rfl, rfl, rfl, by
    simp [startBatchedMigrations, assertRunner, startRunner]⟩

/-- Events emitted by the batch runner are batch invocations only. -/
theorem runMigration_no_lock (m : BatchedMigration) (r : BatchedMigrationRow)
    (budget : Option Nat) :
    ∀ e ∈ (runMigration m r budget).events, e.isLockAcquire = false := by
  intro e he
  obtain ⟨lo, hi, rfl⟩ := runMigration_events_shape m r budget e he
  rfl

/-- C3: contrary to the claim, `finalizeBatchedMigration` never acquires
the distributed migration lock: for every state, registry and
identifier, its event trace contains no lock acquisition at all (the
source carries a TODO admitting the gap), while a scheduled round that
performs work does acquire the `batched-migrations:<project>:<timestamp>`
lock. -/
theorem finalize_never_locks (defs : MigrationDefs) (s : RunnerState)
    (identifier : String) :
    ((finalizeBatchedMigration defs s identifier).2.2.all
      (fun e => !e.isLockAcquire)) = true := by
  rw [List.all_eq_true]
  intro e he
  suffices h : e.isLockAcquire = false by rw [h]; rfl
  revert he
  simp only [finalizeBatchedMigration]
  split
  · intro he; cases he
  next migration₀ hsel =>
    split
    · intro he; cases he
    next hsucc =>
      by_cases hf : migration₀.status = .finalizing
      · simp only [if_pos hf]
        split
        · intro he; cases he
        next migrationFile hfile =>
          split
          · intro he; cases he
          next migrationDef hdef =>
            have hrun := runMigration_no_lock migrationDef migration₀ none
            split
            · simp only [List.nil_append]
              exact hrun e
            · split
              · simp only [List.nil_append]
                exact hrun e
              · split
                · simp only [List.nil_append]
                  exact hrun e
                · simp only [List.nil_append]
                  exact hrun e
      · simp only [if_neg hf]
        rw [getMigrationForIdentifier_db]
        have hupd : ∀ e ∈ [Event.updateStatus migration₀.id
            BatchedMigrationStatus.finalizing], e.isLockAcquire = false := by
          intro e he
          simp only [List.mem_singleton] at he
          subst he
          rfl
        split
        · exact hupd e
        next migrationFile hfile =>
          split
          · exact hupd e
          next migrationDef hdef =>
            have hrun := runMigration_no_lock migrationDef
              { migration₀ with status := .finalizing } none
            have hboth : ∀ x ∈ [Event.updateStatus migration₀.id
                BatchedMigrationStatus.finalizing] ++
                (runMigration migrationDef
                  { migration₀ with status := .finalizing } none).events,
                x.isLockAcquire = false := by
              intro x hx
              rw [List.mem_append] at hx
              rcases hx with hx | hx
              · exact hupd x hx
              · exact hrun x hx
            split
            · exact hboth e
            · split
              · exact hboth e
              · split
                · exact hboth e
                · exact hboth e

/-- C9: `finalizeBatchedMigration` moves the record to `finalizing`
before resolving the definition file, so on an identifier whose
timestamp matches an existing non-succeeded record but whose definition
is unknown to this process, it throws `noMigrationFound` while leaving
the record's status switched to `finalizing`. -/
theorem finalize_mutates_before_resolution (defs : MigrationDefs)
    (s : RunnerState) (identifier : String) (R : BatchedMigrationRow)
    (hsel : selectBatchedMigrationForTimestamp s.db s.project
      (timestampOf identifier) = .ok R)
    (hnotsucc : R.status ≠ .succeeded)
    (hnofile : getMigrationForIdentifier s identifier = none) :
    (finalizeBatchedMigration defs s identifier).1 =
      .error (.noMigrationFound identifier) ∧
    ∃ R₁, selectBatchedMigrationForTimestamp
        (finalizeBatchedMigration defs s identifier).2.1.db s.project
        (timestampOf identifier) = .ok R₁ ∧ R₁.status = .finalizing := by
  by_cases hf : R.status = .finalizing
  · simp only [finalizeBatchedMigration, hsel, if_neg hnotsucc, if_pos hf, hnofile]
    exact ⟨trivial, R, rfl, hf⟩
  · simp only [finalizeBatchedMigration, hsel, if_neg hnotsucc, if_neg hf,
      getMigrationForIdentifier_db, hnofile]
    refine ⟨trivial, { R with status := .finalizing }, ?_, rfl⟩
    have hfields : ∀ r ∈ s.db,
        ((fun r => if r.id == R.id then { r with status := .finalizing }
          else r) r).id = r.id ∧
        ((fun r => if r.id == R.id then { r with status := .finalizing }
          else r) r).project = r.project ∧
        ((fun r => if r.id == R.id then { r with status := .finalizing }
          else r) r).timestamp = r.timestamp := by
      intro r _
      by_cases h : (r.id == R.id) = true <;> simp [h]
    have hmap := select_map (fun r => if r.id == R.id then
      { r with status := .finalizing } else r) hfields hsel
    simpa [updateBatchedMigrationStatus] using hmap

/-- A record whose definition file this process does not know. -/
def orphanRow : BatchedMigrationRow :=
  { id := 1, project := "pl", filename := "20230406184103_backfill.ts",
    timestamp := "20230406184103", batch_size := 1000, min_value := 1,
    max_value := 2500, cursor := 2000, status := .running }

/-- A runner state with no known definition files but one running
record. -/
def orphanState : RunnerState :=
  { project := "pl", migrationFiles := [], running := false,
    aborted := false, db := [orphanRow] }

/-- Witness for C9 at a concrete orphaned record. -/
theorem finalize_mutates_before_resolution_witness :
    (selectBatchedMigrationForTimestamp orphanState.db orphanState.project
        (timestampOf "20230406184103_backfill") = .ok orphanRow ∧
      orphanRow.status ≠ .succeeded ∧
      getMigrationForIdentifier orphanState "20230406184103_backfill" = none) ∧
    ((finalizeBatchedMigration exampleDefs orphanState
        "20230406184103_backfill").1 =
      .error (.noMigrationFound "20230406184103_backfill") ∧
    ∃ R₁, selectBatchedMigrationForTimestamp
        (finalizeBatchedMigration exampleDefs orphanState
          "20230406184103_backfill").2.1.db orphanState.project
        (timestampOf "20230406184103_backfill") = .ok R₁ ∧
      R₁.status = .finalizing) := by
  refine ⟨⟨by decide, by decide, rfl⟩, ?_⟩
  exact finalize_mutates_before_resolution exampleDefs orphanState
    "20230406184103_backfill" orphanRow (by decide) (by decide) rfl

theorem runMigration_stuck (m : BatchedMigration) (r : BatchedMigrationRow)
    (budget : Option Nat) (hb : budget ≠ some 0)
    (h : ¬(r.cursor < r.max_value ∧ 0 < r.batch_size))
    (hle : ¬r.max_value ≤ r.cursor) :
    runMigration m r budget = ⟨false, r, []⟩ := by
  rw [runMigration]
  simp only [if_neg hb, dif_neg h, if_neg hle]

/-- A run whose batch function always succeeds never fails. -/
theorem runMigration_ok_of_batchOk (m : BatchedMigration)
    (hok : ∀ lo hi, m.batchOk lo hi = true) (r : BatchedMigrationRow)
    (budget : Option Nat) : (runMigration m r budget).failed = false := by
  induction r, budget using runMigration.induct m with
  | case1 r => rw [runMigration_stop]
  | case2 r budget hb h hi hok₂ ih =>
    rw [runMigration_step m r budget hb h (hok _ _)]
    exact ih
  | case3 r budget hb h hi hnot => exact absurd (hok _ _) hnot
  | case4 r budget hb h hle => rw [runMigration_done m r budget hb hle]
  | case5 r budget hb h hle => rw [runMigration_stuck m r budget hb h hle]

/-- Selecting after persisting a row whose key coincides with the
previously selected row returns the persisted row. -/
theorem select_persist_run {db : List BatchedMigrationRow} (hwf : DbWF db)
    {p ts : String} {R : BatchedMigrationRow}
    (hR : selectBatchedMigrationForTimestamp db p ts = .ok R)
    {row : BatchedMigrationRow} (hid : row.id = R.id)
    (hproj : row.project = R.project) (hts : row.timestamp = R.timestamp) :
    selectBatchedMigrationForTimestamp (persistRow db row) p ts = .ok row := by
  obtain ⟨hmem, hRp, hRt⟩ := select_ok_mem hR
  have hfields : ∀ r ∈ db,
      ((fun r => if r.id == row.id then row else r) r).id = r.id ∧
      ((fun r => if r.id == row.id then row else r) r).project = r.project ∧
      ((fun r => if r.id == row.id then row else r) r).timestamp = r.timestamp := by
    intro r hr
    by_cases h : (r.id == row.id) = true
    · have hr_eq : r = R := dbwf_unique_id hwf hr hmem
        (by rw [beq_iff_eq] at h; rw [h, hid])
      subst hr_eq
      simp [h, hid, hproj, hts]
    · simp [h]
  have hmap := select_map (fun r => if r.id == row.id then row else r) hfields hR
  have hfR : (if R.id = row.id then row else R) = row := by
    rw [if_pos hid.symm]
  rw [persistRow]
  simpa [hfR] using hmap

/-- C4: `finalizeBatchedMigration` is a no-op returning success when the
record is already `succeeded`; otherwise it forces the status to
`finalizing` (skipping the update when already there), runs the batch
runner with no time limit (so with an always-succeeding batch function
it returns success), re-reads the record, and returns normally exactly
when the re-read status is `succeeded`, raising an error for any other
outcome. -/
theorem finalize_contract (defs : MigrationDefs) (s : RunnerState)
    (identifier : String) (R : BatchedMigrationRow) (file : MigrationFile)
    (md : BatchedMigration)
    (hwf : DbWF s.db)
    (hsel : selectBatchedMigrationForTimestamp s.db s.project
      (timestampOf identifier) = .ok R)
    (hfile : getMigrationForIdentifier s identifier = some file)
    (hdef : defs file.timestamp = some md)
    (hbs : 0 < R.batch_size) :
    (R.status = .succeeded →
      finalizeBatchedMigration defs s identifier = (.ok (), s, [])) ∧
    (R.status ≠ .succeeded → R.status ≠ .finalizing →
      Event.updateStatus R.id .finalizing ∈
        (finalizeBatchedMigration defs s identifier).2.2) ∧
    (R.status = .finalizing →
      ∀ i st, Event.updateStatus i st ∉
        (finalizeBatchedMigration defs s identifier).2.2) ∧
    ((∀ lo hi, md.batchOk lo hi = true) →
      (finalizeBatchedMigration defs s identifier).1 = .ok ()) ∧
    ((finalizeBatchedMigration defs s identifier).1 = .ok () ↔
      ∃ R₂, selectBatchedMigrationForTimestamp
          (finalizeBatchedMigration defs s identifier).2.1.db s.project
          (timestampOf identifier) = .ok R₂ ∧ R₂.status = .succeeded) := by
  by_cases hsucc : R.status = .succeeded
  · have hfin : finalizeBatchedMigration defs s identifier = (.ok (), s, []) := by
      simp only [finalizeBatchedMigration, hsel, if_pos hsucc]
    refine ⟨fun _ => hfin, fun h _ => absurd hsucc h,
      fun hf _ _ => (by rw [hsucc] at hf; cases hf),
      fun _ => (by rw [hfin]), ?_⟩
    rw [hfin]
    exact ⟨fun _ => ⟨R, hsel, hsucc⟩, fun _ => rfl⟩
  · by_cases hf : R.status = .finalizing
    · have hflds := runMigration_fields md R none
      have hsel₂ : selectBatchedMigrationForTimestamp
          (persistRow s.db (runMigration md R none).row) s.project
          (timestampOf identifier) = .ok (runMigration md R none).row :=
        select_persist_run hwf hsel hflds.1 hflds.2.1 hflds.2.2.1
      by_cases hfail : (runMigration md R none).failed = true
      · have hstat : (runMigration md R none).row.status = R.status :=
          runMigration_failed_status md R none hfail
        have hfin : finalizeBatchedMigration defs s identifier =
            (.error .batchFailure,
              { s with db := persistRow s.db (runMigration md R none).row },
              [] ++ (runMigration md R none).events) := by
          simp only [finalizeBatchedMigration, hsel, if_neg hsucc, if_pos hf,
            hfile, hdef, if_pos hfail]
        refine ⟨fun h => absurd h hsucc, fun _ hnf => absurd hf hnf,
          fun _ i st => ?_, fun hok => ?_, ?_⟩
        · rw [hfin]
          simp only [List.nil_append]
          intro hmem
          obtain ⟨lo, hi, heq⟩ := runMigration_events_shape md R none _ hmem
          cases heq
        · rw [runMigration_ok_of_batchOk md hok R none] at hfail
          cases hfail
        · rw [hfin]
          constructor
          · intro h; cases h
          · rintro ⟨R₂, hselR₂, hstR₂⟩
            rw [hsel₂] at hselR₂
            cases hselR₂
            rw [hstat, hf] at hstR₂
            cases hstR₂
      · have hstat : (runMigration md R none).row.status = .succeeded :=
          runMigration_complete md R none rfl hbs (by simpa using hfail)
        have hfin : finalizeBatchedMigration defs s identifier =
            (.ok (),
              { s with db := persistRow s.db (runMigration md R none).row },
              [] ++ (runMigration md R none).events) := by
          simp only [finalizeBatchedMigration, hsel, if_neg hsucc, if_pos hf,
            hfile, hdef, if_neg hfail, hsel₂, if_pos hstat]
        refine ⟨fun h => absurd h hsucc, fun _ hnf => absurd hf hnf,
          fun _ i st => ?_, fun _ => (by rw [hfin]), ?_⟩
        · rw [hfin]
          simp only [List.nil_append]
          intro hmem
          obtain ⟨lo, hi, heq⟩ := runMigration_events_shape md R none _ hmem
          cases heq
        · rw [hfin]
          exact ⟨fun _ => ⟨(runMigration md R none).row, hsel₂, hstat⟩,
            fun _ => rfl⟩
    · have hfieldsU : ∀ r ∈ s.db,
          ((fun r => if r.id == R.id then { r with status := .finalizing }
            else r) r).id = r.id ∧
          ((fun r => if r.id == R.id then { r with status := .finalizing }
            else r) r).project = r.project ∧
          ((fun r => if r.id == R.id then { r with status := .finalizing }
            else r) r).timestamp = r.timestamp := by
        intro r _
        by_cases h : (r.id == R.id) = true <;> simp [h]
      have hwfMid : DbWF (updateBatchedMigrationStatus s.db R.id .finalizing) := by
        rw [updateBatchedMigrationStatus]
        exact dbwf_map _ hfieldsU hwf
      have hselMid : selectBatchedMigrationForTimestamp
          (updateBatchedMigrationStatus s.db R.id .finalizing) s.project
          (timestampOf identifier) = .ok { R with status := .finalizing } := by
        have hmap := select_map (fun r => if r.id == R.id then
          { r with status := .finalizing } else r) hfieldsU hsel
        simpa [updateBatchedMigrationStatus] using hmap
      have hflds := runMigration_fields md { R with status := .finalizing } none
      have hsel₂ : selectBatchedMigrationForTimestamp
          (persistRow (updateBatchedMigrationStatus s.db R.id .finalizing)
            (runMigration md { R with status := .finalizing } none).row)
          s.project (timestampOf identifier) =
          .ok (runMigration md { R with status := .finalizing } none).row :=
        select_persist_run hwfMid hselMid hflds.1 hflds.2.1 hflds.2.2.1
      by_cases hfail : (runMigration md { R with status := .finalizing } none).failed = true
      · have hstat : (runMigration md { R with status := .finalizing } none).row.status =
            .finalizing :=
          runMigration_failed_status md { R with status := .finalizing } none hfail
        have hfin : finalizeBatchedMigration defs s identifier =
            (.error .batchFailure,
              { s with
                db := persistRow
                        (updateBatchedMigrationStatus s.db R.id .finalizing)
                        (runMigration md { R with status := .finalizing } none).row },
              [Event.updateStatus R.id .finalizing] ++
                (runMigration md { R with status := .finalizing } none).events) := by
          simp only [finalizeBatchedMigration, hsel, if_neg hsucc, if_neg hf,
            getMigrationForIdentifier_db, hfile, hdef, if_pos hfail]
        refine ⟨fun h => absurd h hsucc, fun _ _ => ?_,
          fun hfin₂ => absurd hfin₂ hf, fun hok => ?_, ?_⟩
        · rw [hfin]
          exact List.mem_append_left _ (List.mem_singleton.mpr rfl)
        · rw [runMigration_ok_of_batchOk md hok
            { R with status := .finalizing } none] at hfail
          cases hfail
        · rw [hfin]
          constructor
          · intro h; cases h
          · rintro ⟨R₂, hselR₂, hstR₂⟩
            rw [hsel₂] at hselR₂
            cases hselR₂
            rw [hstat] at hstR₂
            cases hstR₂
      · have hstat : (runMigration md { R with status := .finalizing } none).row.status =
            .succeeded :=
          runMigration_complete md { R with status := .finalizing } none rfl hbs
            (by simpa using hfail)
        have hfin : finalizeBatchedMigration defs s identifier =
            (.ok (),
              { s with
                db := persistRow
                        (updateBatchedMigrationStatus s.db R.id .finalizing)
                        (runMigration md { R with status := .finalizing } none).row },
              [Event.updateStatus R.id .finalizing] ++
                (runMigration md { R with status := .finalizing } none).events) := by
          simp only [finalizeBatchedMigration, hsel, if_neg hsucc, if_neg hf,
            getMigrationForIdentifier_db, hfile, hdef, if_neg hfail, hsel₂,
            if_pos hstat]
        refine ⟨fun h => absurd h hsucc, fun _ _ => ?_,
          fun hfin₂ => absurd hfin₂ hf, fun _ => (by rw [hfin]), ?_⟩
        · rw [hfin]
          exact List.mem_append_left _ (List.mem_singleton.mpr rfl)
        · rw [hfin]
          exact ⟨fun _ =>
            ⟨(runMigration md { R with status := .finalizing } none).row,
              hsel₂, hstat⟩, fun _ => rfl⟩

/-- A runner state holding `orphanRow` with its definition file known. -/
def runningState : RunnerState :=
  { project := "pl", migrationFiles := [exampleFile], running := false,
    aborted := false, db := [orphanRow] }

/-- Witness for C4 at a concrete running migration. -/
theorem finalize_contract_witness :
    (DbWF runningState.db ∧
      selectBatchedMigrationForTimestamp runningState.db runningState.project
        (timestampOf "20230406184103_backfill") = .ok orphanRow ∧
      getMigrationForIdentifier runningState "20230406184103_backfill" =
        some exampleFile ∧
      exampleDefs exampleFile.timestamp = some exampleMigration ∧
      0 < orphanRow.batch_size) ∧
    ((orphanRow.status = .succeeded →
      finalizeBatchedMigration exampleDefs runningState "20230406184103_backfill" =
        (.ok (), runningState, [])) ∧
    (orphanRow.status ≠ .succeeded → orphanRow.status ≠ .finalizing →
      Event.updateStatus orphanRow.id .finalizing ∈
        (finalizeBatchedMigration exampleDefs runningState
          "20230406184103_backfill").2.2) ∧
    (orphanRow.status = .finalizing →
      ∀ i st, Event.updateStatus i st ∉
        (finalizeBatchedMigration exampleDefs runningState
          "20230406184103_backfill").2.2) ∧
    ((∀ lo hi, exampleMigration.batchOk lo hi = true) →
      (finalizeBatchedMigration exampleDefs runningState
        "20230406184103_backfill").1 = .ok ()) ∧
    ((finalizeBatchedMigration exampleDefs runningState
        "20230406184103_backfill").1 = .ok () ↔
      ∃ R₂, selectBatchedMigrationForTimestamp
          (finalizeBatchedMigration exampleDefs runningState
            "20230406184103_backfill").2.1.db runningState.project
          (timestampOf "20230406184103_backfill") = .ok R₂ ∧
        R₂.status = .succeeded)) := by
  refine ⟨⟨by decide, by decide, by decide, rfl, by decide⟩, ?_⟩
  exact finalize_contract exampleDefs runningState "20230406184103_backfill"
    orphanRow exampleFile exampleMigration (by decide) (by decide) (by decide)
    rfl (by decide)

theorem maybePerformWork_flags (defs : MigrationDefs) (s : RunnerState)
    (lockAvailable : Bool) (budget : Option Nat) :
    (maybePerformWork defs s lockAvailable budget).2.1.running = s.running ∧
    (maybePerformWork defs s lockAvailable budget).2.1.aborted = s.aborted ∧
    (maybePerformWork defs s lockAvailable budget).2.1.project = s.project := by
  simp only [maybePerformWork]
  split
  next s₁ heq =>
    rcases selectOrStart_shape s with hshape | ⟨r, hmem, hproj, hcase⟩
    · rw [heq] at hshape
      injection hshape with h₁ h₂
      rw [h₂]
      exact ⟨rfl, rfl, rfl⟩
    · rcases hcase with ⟨_, heq₂⟩ | ⟨_, heq₂⟩ <;> (rw [heq] at heq₂; simp at heq₂)
  next migration s₁ heq =>
    have hs₁ : s₁.running = s.running ∧ s₁.aborted = s.aborted ∧
        s₁.project = s.project := by
      rcases selectOrStart_shape s with hshape | ⟨r, hmem, hproj, hcase⟩
      · rw [heq] at hshape
        simp at hshape
      · rcases hcase with ⟨_, heq₂⟩ | ⟨_, heq₂⟩ <;> rw [heq] at heq₂ <;>
          injection heq₂ with h₁ h₂
        · rw [h₂]
          exact ⟨rfl, rfl, rfl⟩
        · rw [h₂]
          exact ⟨rfl, rfl, rfl⟩
    split
    · exact hs₁
    next migrationFile hfile =>
      split
      · split
        · exact hs₁
        next migrationDef hdef => exact hs₁
      · exact hs₁

theorem maybePerformWork_lockFalse (defs : MigrationDefs) (s : RunnerState)
    (budget : Option Nat) :
    (maybePerformWork defs s false budget).1 = .ok false ∧
    (maybePerformWork defs s false budget).2.2 = [] := by
  simp only [maybePerformWork]
  split
  · exact ⟨rfl, rfl⟩
  next migration s₁ heq =>
    split
    · exact ⟨rfl, rfl⟩
    · simp

theorem maybePerformWork_runFailed (defs : MigrationDefs) (rs : RunnerState)
    (budget : Option Nat) {migration : BatchedMigrationRow} {s₁ : RunnerState}
    {file : MigrationFile} {md : BatchedMigration}
    (hsel : selectOrStartRunnableMigration rs = (some migration, s₁))
    (hfile : getMigrationForIdentifier s₁ migration.timestamp = some file)
    (hdef : defs file.timestamp = some md)
    (hfail : (runMigration md migration budget).failed = true) :
    (maybePerformWork defs rs true budget).1 = .ok true ∧
    Event.emitError .batchFailure ∈ (maybePerformWork defs rs true budget).2.2 := by
  simp only [maybePerformWork, hsel, hfile, hdef, if_true, hfail]
  simp

/-- C6: a scheduling round never exits the loop and never touches the
running or abort flags; an error raised during the round is emitted to
the observer as an error event and the loop moves on (to an immediate
retry or a sleep); a failed lock acquisition is treated as no work with
no error; and a batch failure inside the round is emitted as an error
event while the round still reports work done. -/
theorem loop_round_resilient (defs : MigrationDefs) (rs : RunnerState)
    (lockAvailable : Bool) (budget : Option Nat) :
    ((loopRound defs rs lockAvailable budget).2.2 = .atTop ∨
      (loopRound defs rs lockAvailable budget).2.2 = .sleeping) ∧
    (loopRound defs rs lockAvailable budget).1.running = rs.running ∧
    (loopRound defs rs lockAvailable budget).1.aborted = rs.aborted ∧
    (∀ e, (maybePerformWork defs rs lockAvailable budget).1 = .error e →
      Event.emitError e ∈ (loopRound defs rs lockAvailable budget).2.1) ∧
    (lockAvailable = false →
      (maybePerformWork defs rs lockAvailable budget).1 = .ok false ∧
      (loopRound defs rs lockAvailable budget).2.1 = []) ∧
    (∀ migration s₁ file md, selectOrStartRunnableMigration rs = (some migration, s₁) →
      getMigrationForIdentifier s₁ migration.timestamp = some file →
      defs file.timestamp = some md → lockAvailable = true →
      (runMigration md migration budget).failed = true →
      (maybePerformWork defs rs lockAvailable budget).1 = .ok true ∧
      Event.emitError .batchFailure ∈ (loopRound defs rs lockAvailable budget).2.1) := by
  obtain ⟨hrun, habort, hproj⟩ := maybePerformWork_flags defs rs lockAvailable budget
  rcases hmw : maybePerformWork defs rs lockAvailable budget with ⟨res, rs₁, evs⟩
  rw [hmw] at hrun habort
  cases res with
  | ok b =>
    cases b with
    | true =>
      have hlr : loopRound defs rs lockAvailable budget = (rs₁, evs, .atTop) := by
        simp only [loopRound, hmw]
      rw [hlr]
      refine ⟨Or.inl rfl, hrun, habort, fun e he => absurd he (by simp), fun hlock => ?_, ?_⟩
      · obtain ⟨h₁, h₂⟩ := maybePerformWork_lockFalse defs rs budget
        rw [hlock] at hmw
        rw [hmw] at h₁
        simp at h₁
      · intro migration s₁ file md hsel hfile hdef hlock hfail
        subst hlock
        obtain ⟨h₁, h₂⟩ := maybePerformWork_runFailed defs rs budget hsel hfile hdef hfail
        rw [hmw] at h₂
        exact ⟨rfl, h₂⟩
    | false =>
      have hlr : loopRound defs rs lockAvailable budget = (rs₁, evs, .sleeping) := by
        simp only [loopRound, hmw]
      rw [hlr]
      refine ⟨Or.inr rfl, hrun, habort, fun e he => absurd he (by simp), fun hlock => ?_, ?_⟩
      · obtain ⟨h₁, h₂⟩ := maybePerformWork_lockFalse defs rs budget
        rw [hlock] at hmw
        rw [hmw] at h₁ h₂
        exact ⟨rfl, h₂⟩
      · intro migration s₁ file md hsel hfile hdef hlock hfail
        subst hlock
        obtain ⟨h₁, h₂⟩ := maybePerformWork_runFailed defs rs budget hsel hfile hdef hfail
        rw [hmw] at h₁
        simp at h₁
  | error e =>
    have hlr : loopRound defs rs lockAvailable budget =
        (rs₁, evs ++ [Event.emitError e], .sleeping) := by
      simp only [loopRound, hmw]
    rw [hlr]
    refine ⟨Or.inr rfl, hrun, habort, fun e' he' => ?_, fun hlock => ?_, ?_⟩
    · have he₂ : e = e' := by simpa using he'
      subst he₂
      exact List.mem_append_right _ (List.mem_singleton.mpr rfl)
    · obtain ⟨h₁, h₂⟩ := maybePerformWork_lockFalse defs rs budget
      rw [hlock] at hmw
      rw [hmw] at h₁
      simp at h₁
    · intro migration s₁ file md hsel hfile hdef hlock hfail
      subst hlock
      obtain ⟨h₁, h₂⟩ := maybePerformWork_runFailed defs rs budget hsel hfile hdef hfail
      rw [hmw] at h₁
      simp at h₁

/-- A registry that recognizes no migration class. -/
def noneDefs : MigrationDefs := fun _ => none

/-- A pending record whose file is known but whose class fails to load. -/
def pendingRow : BatchedMigrationRow :=
  { id := 1, project := "pl", filename := "20230406184103_backfill.ts",
    timestamp := "20230406184103", batch_size := 1000, min_value := 1,
    max_value := 2500, cursor := 0, status := .pending }

/-- A runner state mid-loop over one pending record. -/
def pendingState : RunnerState :=
  { project := "pl", migrationFiles := [exampleFile], running := true,
    aborted := false, db := [pendingRow] }

/-- Witness for C6: a round whose migration class fails to load raises
an error that the loop emits as an error event and survives. -/
theorem loop_round_resilient_witness :
    (maybePerformWork noneDefs pendingState true (some 60)).1 =
      .error .invalidMigrationClass ∧
    Event.emitError .invalidMigrationClass ∈
      (loopRound noneDefs pendingState true (some 60)).2.1 ∧
    ((loopRound noneDefs pendingState true (some 60)).2.2 = .atTop ∨
      (loopRound noneDefs pendingState true (some 60)).2.2 = .sleeping) ∧
    (loopRound noneDefs pendingState true (some 60)).1.running =
      pendingState.running := by
  have h := loop_round_resilient noneDefs pendingState true (some 60)
  have herr : (maybePerformWork noneDefs pendingState true (some 60)).1 =
      .error .invalidMigrationClass := by decide
  exact ⟨herr, h.2.2.2.1 _ herr, h.1, h.2.1⟩

/-- States from which the loop can no longer do work: the abort signal
is set and the loop is not inside its body. -/
def QuiescentP (s : LoopState) : Prop :=
  s.rs.aborted = true ∧
    (s.phase = .idle ∨ s.phase = .atTop ∨ s.phase = .exited)

theorem loopStep_quiescent {defs : MigrationDefs} {s₁ : LoopState}
    {evs : List Event} {s₂ : LoopState}
    (hq : QuiescentP s₁) (hstep : LoopStep defs s₁ evs s₂) :
    evs = [] ∧ QuiescentP s₂ := by
  cases hstep with
  | start h₁ h₂ => exact ⟨rfl, hq.1, Or.inr (Or.inl rfl)⟩
  | abortExit h₁ h₂ => exact ⟨rfl, hq.1, Or.inr (Or.inr rfl)⟩
  | enterWork h₁ h₂ => rw [hq.1] at h₂; cases h₂
  | work lockAvailable budget hphase =>
    rcases hq.2 with hp | hp | hp <;> (rw [hphase] at hp; cases hp)
  | wake hphase =>
    rcases hq.2 with hp | hp | hp <;> (rw [hphase] at hp; cases hp)
  | signalStop => exact ⟨rfl, rfl, hq.2⟩

theorem loopSteps_quiescent {defs : MigrationDefs} {s₁ : LoopState}
    {evs : List Event} {s₂ : LoopState}
    (hq : QuiescentP s₁) (hsteps : LoopSteps defs s₁ evs s₂) :
    evs = [] ∧ QuiescentP s₂ := by
  induction hsteps with
  | refl => exact ⟨rfl, hq⟩
  | tail evs s₂ evs' s₃ hsteps hstep ih =>
    obtain ⟨h₁, h₂⟩ := ih
    obtain ⟨h₃, h₄⟩ := loopStep_quiescent h₂ hstep
    refine ⟨?_, h₄⟩
    rw [h₁, h₃]
    rfl

/-- The coherence of the running flag with the loop phase is preserved
by every loop step. -/
theorem loopStep_inv {defs : MigrationDefs} {s₁ : LoopState}
    {evs : List Event} {s₂ : LoopState}
    (hinv : LoopInv s₁) (hstep : LoopStep defs s₁ evs s₂) : LoopInv s₂ := by
  cases hstep with
  | start h₁ h₂ => exact ⟨fun _ => Or.inl rfl, fun _ => rfl⟩
  | abortExit h₁ h₂ =>
    constructor
    · intro h; cases h
    · intro h
      rcases h with h | h | h <;> cases h
  | enterWork h₁ h₂ =>
    exact ⟨fun _ => Or.inr (Or.inl rfl), fun _ => hinv.mpr (Or.inl h₁)⟩
  | work lockAvailable budget hphase =>
    have hrun := (loop_round_resilient defs s₁.rs lockAvailable budget).2.1
    have hph := (loop_round_resilient defs s₁.rs lockAvailable budget).1
    constructor
    · intro _
      rcases hph with hp | hp <;> rw [hp]
      · exact Or.inl rfl
      · exact Or.inr (Or.inr rfl)
    · intro _
      show (loopRound defs s₁.rs lockAvailable budget).1.running = true
      rw [hrun]
      exact hinv.mpr (Or.inr (Or.inl hphase))
  | wake hphase =>
    exact ⟨fun _ => Or.inl rfl, fun _ => hinv.mpr (Or.inr (Or.inr hphase))⟩
  | signalStop =>
    exact ⟨fun h => hinv.mp h, fun h => hinv.mpr h⟩

/-- C5: once `stop()` has returned — it sets the abort signal and then
blocks, polling, until the running flag is observed clear — the loop has
fully exited (phase `idle` or `exited`), and along every subsequent
trace of the system no event at all is emitted: in particular no lock is
acquired and no batch work happens for any migration after `stop()`
returns. -/
theorem stop_quiescent (defs : MigrationDefs) (s₀ : LoopState)
    (evs : List Event) (s₁ : LoopState)
    (hinv : LoopInv s₀) (hstop : stopReturned s₀)
    (hsteps : LoopSteps defs s₀ evs s₁) :
    (s₀.phase = .idle ∨ s₀.phase = .exited) ∧
    evs = [] ∧
    (∀ e ∈ evs, e.isLockAcquire = false ∧ e.isRunBatch = false) := by
  have hphase : s₀.phase = .idle ∨ s₀.phase = .exited := by
    cases hp : s₀.phase
    · exact Or.inl rfl
    · exact absurd (hinv.mpr (Or.inl hp)) (by rw [hstop.2]; simp)
    · exact absurd (hinv.mpr (Or.inr (Or.inl hp))) (by rw [hstop.2]; simp)
    · exact absurd (hinv.mpr (Or.inr (Or.inr hp))) (by rw [hstop.2]; simp)
    · exact Or.inr rfl
  have hq : QuiescentP s₀ := by
    refine ⟨hstop.1, ?_⟩
    rcases hphase with hp | hp
    · exact Or.inl hp
    · exact Or.inr (Or.inr hp)
  obtain ⟨hevs, _⟩ := loopSteps_quiescent hq hsteps
  refine ⟨hphase, hevs, ?_⟩
  intro e he
  rw [hevs] at he
  cases he

/-- A stopped loop state over an empty store. -/
def stoppedLoopState : LoopState :=
  ⟨.exited, { project := "pl",
              migrationFiles := [],
              running := false,
              aborted := true,
              db := [] }⟩

/-- Witness for C5 at a concrete stopped loop. -/
theorem stop_quiescent_witness :
    (LoopInv stoppedLoopState ∧ stopReturned stoppedLoopState ∧
      LoopSteps exampleDefs stoppedLoopState [] stoppedLoopState) ∧
    ((stoppedLoopState.phase = .idle ∨ stoppedLoopState.phase = .exited) ∧
      ([] : List Event) = [] ∧
      (∀ e ∈ ([] : List Event), e.isLockAcquire = false ∧ e.isRunBatch = false)) := by
  refine ⟨⟨by decide, by decide, LoopSteps.refl stoppedLoopState⟩, ?_⟩
  exact stop_quiescent exampleDefs stoppedLoopState [] stoppedLoopState
    (by decide) (by decide) (LoopSteps.refl stoppedLoopState)

/-! ## Succeeded records are frozen (C2 machinery) -/

theorem dbwf_persist_of {db : List BatchedMigrationRow} (hwf : DbWF db)
    {base row : BatchedMigrationRow} (hbase : base ∈ db)
    (hid : row.id = base.id) (hproj : row.project = base.project)
    (hts : row.timestamp = base.timestamp) :
    DbWF (persistRow db row) ∧
    ∀ r ∈ db, r.id ≠ base.id → r ∈ persistRow db row := by
  constructor
  · rw [persistRow]
    refine dbwf_map _ ?_ hwf
    intro r hr
    by_cases h : (r.id == row.id) = true
    · have hr_eq : r = base := dbwf_unique_id hwf hr hbase
        (by rw [beq_iff_eq] at h; rw [h, hid])
      subst hr_eq
      simp [h, hid, hproj, hts]
    · simp [h]
  · intro r hr hne
    have hf : (if r.id == row.id then row else r) = r := by
      rw [if_neg]
      simp only [beq_iff_eq]
      rw [hid]
      exact hne
    rw [persistRow]
    exact List.mem_map.mpr ⟨r, hr, hf⟩

theorem updateStatus_shape {db : List BatchedMigrationRow} (hwf : DbWF db)
    (i : Nat) (st : BatchedMigrationStatus) :
    DbWF (updateBatchedMigrationStatus db i st) ∧
    (∀ r ∈ db, r.id ≠ i → r ∈ updateBatchedMigrationStatus db i st) ∧
    (∀ r ∈ db, r.id = i →
      { r with status := st } ∈ updateBatchedMigrationStatus db i st) := by
  refine ⟨?_, ?_, ?_⟩
  · rw [updateBatchedMigrationStatus]
    refine dbwf_map _ ?_ hwf
    intro r _
    by_cases h : (r.id == i) = true <;> simp [h]
  · intro r hr hne
    have hf : (if r.id == i then { r with status := st } else r) = r := by
      rw [if_neg]
      simp only [beq_iff_eq]
      exact hne
    rw [updateBatchedMigrationStatus]
    exact List.mem_map.mpr ⟨r, hr, hf⟩
  · intro r hr hid
    have hf : (if r.id == i then { r with status := st } else r) =
        { r with status := st } := by
      rw [if_pos]
      simp only [beq_iff_eq]
      exact hid
    rw [updateBatchedMigrationStatus]
    exact List.mem_map.mpr ⟨r, hr, hf⟩

theorem finalize_db_shape (defs : MigrationDefs) (sa : RunnerState)
    (identifier : String) (hwf : DbWF sa.db) :
    DbWF (finalizeBatchedMigration defs sa identifier).2.1.db ∧
    ∀ row ∈ sa.db,
      ¬(row.project = sa.project ∧ row.timestamp = timestampOf identifier) →
      row ∈ (finalizeBatchedMigration defs sa identifier).2.1.db := by
  simp only [finalizeBatchedMigration]
  split
  · exact ⟨hwf, fun row h _ => h⟩
  next migration₀ hsel =>
    obtain ⟨hmem, hproj, hts⟩ := select_ok_mem hsel
    have hne_id : ∀ row ∈ sa.db,
        ¬(row.project = sa.project ∧ row.timestamp = timestampOf identifier) →
        row.id ≠ migration₀.id := by
      intro row hrow hkey hid
      have heq := dbwf_unique_id hwf hrow hmem hid
      exact hkey ⟨by rw [heq]; exact hproj, by rw [heq]; exact hts⟩
    split
    · exact ⟨hwf, fun row h _ => h⟩
    next hsucc =>
      by_cases hf : migration₀.status = .finalizing
      · simp only [if_pos hf]
        split
        · exact ⟨hwf, fun row h _ => h⟩
        next migrationFile hfile =>
          split
          · exact ⟨hwf, fun row h _ => h⟩
          next migrationDef hdef =>
            have hflds := runMigration_fields migrationDef migration₀ none
            have hper := dbwf_persist_of hwf hmem hflds.1 hflds.2.1 hflds.2.2.1
            have hgoal : DbWF (persistRow sa.db
                (runMigration migrationDef migration₀ none).row) ∧
                ∀ row ∈ sa.db,
                  ¬(row.project = sa.project ∧
                    row.timestamp = timestampOf identifier) →
                  row ∈ persistRow sa.db
                    (runMigration migrationDef migration₀ none).row :=
              ⟨hper.1, fun row hrow hkey =>
                hper.2 row hrow (hne_id row hrow hkey)⟩
            split
            · exact hgoal
            · split
              · exact hgoal
              · split
                · exact hgoal
                · exact hgoal
      · simp only [if_neg hf]
        rw [getMigrationForIdentifier_db]
        have hupd := updateStatus_shape hwf migration₀.id .finalizing
        have hupd_goal : DbWF (updateBatchedMigrationStatus sa.db
            migration₀.id .finalizing) ∧
            ∀ row ∈ sa.db,
              ¬(row.project = sa.project ∧
                row.timestamp = timestampOf identifier) →
              row ∈ updateBatchedMigrationStatus sa.db migration₀.id .finalizing :=
          ⟨hupd.1, fun row hrow hkey =>
            hupd.2.1 row hrow (hne_id row hrow hkey)⟩
        split
        · exact hupd_goal
        next migrationFile hfile =>
          split
          · exact hupd_goal
          next migrationDef hdef =>
            have hbase : { migration₀ with status := .finalizing } ∈
                updateBatchedMigrationStatus sa.db migration₀.id .finalizing :=
              hupd.2.2 migration₀ hmem rfl
            have hflds := runMigration_fields migrationDef
              { migration₀ with status := .finalizing } none
            have hper := dbwf_persist_of hupd.1 hbase hflds.1 hflds.2.1
              hflds.2.2.1
            have hgoal : DbWF (persistRow
                (updateBatchedMigrationStatus sa.db migration₀.id .finalizing)
                (runMigration migrationDef
                  { migration₀ with status := .finalizing } none).row) ∧
                ∀ row ∈ sa.db,
                  ¬(row.project = sa.project ∧
                    row.timestamp = timestampOf identifier) →
                  row ∈ persistRow
                    (updateBatchedMigrationStatus sa.db migration₀.id .finalizing)
                    (runMigration migrationDef
                      { migration₀ with status := .finalizing } none).row :=
              ⟨hper.1, fun row hrow hkey =>
                hper.2 row (hupd.2.1 row hrow (hne_id row hrow hkey))
                  (hne_id row hrow hkey)⟩
            split
            · exact hgoal
            · split
              · exact hgoal
              · split
                · exact hgoal
                · exact hgoal

theorem finalize_events_shape (defs : MigrationDefs) (sa : RunnerState)
    (identifier : String) :
    ∀ e ∈ (finalizeBatchedMigration defs sa identifier).2.2,
      (∃ i st, e = Event.updateStatus i st) ∨
      ∃ lo hi, e = Event.runBatch sa.project (timestampOf identifier) lo hi := by
  simp only [finalizeBatchedMigration]
  split
  · intro e he; cases he
  next migration₀ hsel =>
    obtain ⟨hmem, hproj, hts⟩ := select_ok_mem hsel
    split
    · intro e he; cases he
    next hsucc =>
      by_cases hf : migration₀.status = .finalizing
      · simp only [if_pos hf]
        split
        · intro e he; cases he
        next migrationFile hfile =>
          split
          · intro e he; cases he
          next migrationDef hdef =>
            have hev : ∀ e ∈ ([] : List Event) ++
                (runMigration migrationDef migration₀ none).events,
                (∃ i st, e = Event.updateStatus i st) ∨
                ∃ lo hi, e = Event.runBatch sa.project (timestampOf identifier)
                  lo hi := by
              intro e he
              simp only [List.nil_append] at he
              obtain ⟨lo, hi, heq⟩ :=
                runMigration_events_shape migrationDef migration₀ none e he
              refine Or.inr ⟨lo, hi, ?_⟩
              rw [heq, hproj, hts]
            split
            · exact hev
            · split
              · exact hev
              · split
                · exact hev
                · exact hev
      · simp only [if_neg hf]
        rw [getMigrationForIdentifier_db]
        have hupd : ∀ e ∈ [Event.updateStatus migration₀.id
            BatchedMigrationStatus.finalizing],
            (∃ i st, e = Event.updateStatus i st) ∨
            ∃ lo hi, e = Event.runBatch sa.project (timestampOf identifier)
              lo hi := by
          intro e he
          rw [List.mem_singleton] at he
          exact Or.inl ⟨_, _, he⟩
        split
        · exact hupd
        next migrationFile hfile =>
          split
          · exact hupd
          next migrationDef hdef =>
            have hev : ∀ e ∈ [Event.updateStatus migration₀.id
                BatchedMigrationStatus.finalizing] ++
                (runMigration migrationDef
                  { migration₀ with status := .finalizing } none).events,
                (∃ i st, e = Event.updateStatus i st) ∨
                ∃ lo hi, e = Event.runBatch sa.project (timestampOf identifier)
                  lo hi := by
              intro e he
              rw [List.mem_append] at he
              rcases he with he | he
              · exact hupd e he
              · obtain ⟨lo, hi, heq⟩ := runMigration_events_shape migrationDef
                  { migration₀ with status := .finalizing } none e he
                refine Or.inr ⟨lo, hi, ?_⟩
                rw [heq,
                  show ({ migration₀ with status := .finalizing } :
                    BatchedMigrationRow).project = sa.project from hproj,
                  show ({ migration₀ with status := .finalizing } :
                    BatchedMigrationRow).timestamp = timestampOf identifier
                    from hts]
            split
            · exact hev
            · split
              · exact hev
              · split
                · exact hev
                · exact hev

theorem mem_persistRow_self {db : List BatchedMigrationRow}
    {base row : BatchedMigrationRow} (hbase : base ∈ db)
    (hid : base.id = row.id) : row ∈ persistRow db row := by
  rw [persistRow]
  refine List.mem_map.mpr ⟨base, hbase, ?_⟩
  rw [if_pos]
  rw [beq_iff_eq]
  exact hid

theorem maybeWork_db_shape (defs : MigrationDefs) (sa : RunnerState)
    (lockAvailable : Bool) (budget : Option Nat) (hwf : DbWF sa.db) :
    DbWF (maybePerformWork defs sa lockAvailable budget).2.1.db ∧
    ∀ row ∈ sa.db, row.status = .succeeded →
      row ∈ (maybePerformWork defs sa lockAvailable budget).2.1.db := by
  simp only [maybePerformWork]
  split
  next s₁ heq =>
    rcases selectOrStart_shape sa with hshape | ⟨r, hmem, hproj, hcase⟩
    · rw [heq] at hshape
      injection hshape with h₁ h₂
      rw [h₂]
      exact ⟨hwf, fun row h _ => h⟩
    · rcases hcase with ⟨_, heq₂⟩ | ⟨_, heq₂⟩ <;> (rw [heq] at heq₂; simp at heq₂)
  next migration s₁ heq =>
    have hfacts : DbWF s₁.db ∧
        (∀ row ∈ sa.db, row.status = .succeeded → row ∈ s₁.db) ∧
        migration ∈ s₁.db ∧
        (∀ row ∈ sa.db, row.status = .succeeded → row.id ≠ migration.id) := by
      rcases selectOrStart_shape sa with hshape | ⟨r, hmem, hproj, hcase⟩
      · rw [heq] at hshape
        simp at hshape
      · have hrne : ∀ row ∈ sa.db, row.status = .succeeded → row.id ≠ r.id := by
          intro row hrow hst hid
          have heq₃ := dbwf_unique_id hwf hrow hmem hid
          rcases hcase with ⟨hp, _⟩ | ⟨hp, _⟩ <;> (rw [heq₃, hp] at hst; cases hst)
        rcases hcase with ⟨hp, heq₂⟩ | ⟨hp, heq₂⟩
        · rw [heq] at heq₂
          injection heq₂ with h₁ h₂
          injection h₁ with h₁
          have hper := dbwf_persist_of hwf hmem
            (show ({ r with status := BatchedMigrationStatus.running } :
              BatchedMigrationRow).id = r.id from rfl) rfl rfl
          refine ⟨?_, ?_, ?_, ?_⟩
          · rw [h₂]
            exact hper.1
          · intro row hrow hst
            rw [h₂]
            exact hper.2 row hrow (hrne row hrow hst)
          · rw [h₁, h₂]
            exact mem_persistRow_self hmem rfl
          · intro row hrow hst
            rw [h₁]
            exact hrne row hrow hst
        · rw [heq] at heq₂
          injection heq₂ with h₁ h₂
          injection h₁ with h₁
          rw [h₁, h₂]
          exact ⟨hwf, fun row h _ => h, hmem, hrne⟩
    obtain ⟨hwf₁, hkeep, hmig, hne⟩ := hfacts
    split
    · exact ⟨hwf₁, hkeep⟩
    next migrationFile hfile =>
      split
      · split
        · exact ⟨hwf₁, hkeep⟩
        next migrationDef hdef =>
          have hflds := runMigration_fields migrationDef migration budget
          have hper := dbwf_persist_of hwf₁ hmig hflds.1 hflds.2.1 hflds.2.2.1
          refine ⟨hper.1, ?_⟩
          intro row hrow hst
          exact hper.2 row (hkeep row hrow hst) (hne row hrow hst)
      · exact ⟨hwf₁, hkeep⟩

theorem maybeWork_events_shape (defs : MigrationDefs) (sa : RunnerState)
    (lockAvailable : Bool) (budget : Option Nat) :
    ∀ e ∈ (maybePerformWork defs sa lockAvailable budget).2.2,
      (∃ n, e = Event.lockAcquire n) ∨ (∃ n, e = Event.lockRelease n) ∨
      (∃ er, e = Event.emitError er) ∨
      ∃ T lo hi, e = Event.runBatch sa.project T lo hi ∧
        ∃ r₀ ∈ sa.db, r₀.project = sa.project ∧ r₀.timestamp = T ∧
          r₀.status ≠ .succeeded := by
  simp only [maybePerformWork]
  split
  · intro e he; cases he
  next migration s₁ heq =>
    have hmig : migration.project = sa.project ∧
        ∃ r₀ ∈ sa.db, r₀.project = sa.project ∧
          r₀.timestamp = migration.timestamp ∧ r₀.status ≠ .succeeded := by
      rcases selectOrStart_shape sa with hshape | ⟨r, hmem, hproj, hcase⟩
      · rw [heq] at hshape
        simp at hshape
      · rcases hcase with ⟨hp, heq₂⟩ | ⟨hp, heq₂⟩
        · rw [heq] at heq₂
          injection heq₂ with h₁ h₂
          injection h₁ with h₁
          rw [h₁]
          exact ⟨hproj, r, hmem, hproj, rfl, by rw [hp]; intro h; cases h⟩
        · rw [heq] at heq₂
          injection heq₂ with h₁ h₂
          injection h₁ with h₁
          rw [h₁]
          exact ⟨hproj, r, hmem, hproj, rfl, by rw [hp]; intro h; cases h⟩
    split
    · intro e he; cases he
    next migrationFile hfile =>
      split
      · split
        · intro e he
          simp only [List.mem_cons] at he
          rcases he with rfl | rfl | h
          · exact Or.inl ⟨_, rfl⟩
          · exact Or.inr (Or.inl ⟨_, rfl⟩)
          · cases h
        next migrationDef hdef =>
          intro e he
          simp only [List.mem_cons, List.mem_append] at he
          rcases he with rfl | (he | he) | he
          · exact Or.inl ⟨_, rfl⟩
          · obtain ⟨lo, hi, heq₃⟩ :=
              runMigration_events_shape migrationDef migration budget e he
            refine Or.inr (Or.inr (Or.inr
              ⟨migration.timestamp, lo, hi, ?_, hmig.2⟩))
            rw [heq₃, hmig.1]
          · rcases hfl : (runMigration migrationDef migration budget).failed with
              _ | _
            · rw [hfl] at he
              simp at he
            · rw [hfl] at he
              simp only [if_true, List.mem_singleton] at he
              subst he
              exact Or.inr (Or.inr (Or.inl ⟨_, rfl⟩))
          · rcases he with rfl | h
            · exact Or.inr (Or.inl ⟨_, rfl⟩)
            · cases h
      · intro e he; cases he

theorem finalize_project (defs : MigrationDefs) (sa : RunnerState)
    (identifier : String) :
    (finalizeBatchedMigration defs sa identifier).2.1.project = sa.project := by
  simp only [finalizeBatchedMigration]
  split
  · rfl
  next migration₀ hsel =>
    split
    · rfl
    next hsucc =>
      by_cases hf : migration₀.status = .finalizing
      · simp only [if_pos hf]
        split
        · rfl
        next migrationFile hfile =>
          split
          · rfl
          next migrationDef hdef =>
            split
            · rfl
            · split
              · rfl
              · split
                · rfl
                · rfl
      · simp only [if_neg hf]
        split
        · rfl
        next migrationFile hfile =>
          split
          · rfl
          next migrationDef hdef =>
            split
            · rfl
            · split
              · rfl
              · split
                · rfl
                · rfl

theorem dbwf_insert {db : List BatchedMigrationRow} (hwf : DbWF db)
    {new : BatchedMigrationRow}
    (hid : ∀ r ∈ db, r.id ≠ new.id)
    (hkey : ∀ r ∈ db, ¬(r.project = new.project ∧ r.timestamp = new.timestamp)) :
    DbWF (db ++ [new]) := by
  unfold DbWF
  rw [List.pairwise_append]
  refine ⟨hwf, List.pairwise_singleton _ _, ?_⟩
  intro a ha b hb
  rw [List.mem_singleton] at hb
  subst hb
  exact ⟨hid a ha, hkey a ha⟩

theorem select_insert {db : List BatchedMigrationRow} {new : BatchedMigrationRow}
    (hguard : (db.any (fun r => r.project == new.project &&
      r.timestamp == new.timestamp)) = false) :
    selectBatchedMigrationForTimestamp (db ++ [new]) new.project
      new.timestamp = .ok new := by
  rw [selectBatchedMigrationForTimestamp, List.find?_append]
  have h1 : db.find? (fun r => r.project == new.project &&
      r.timestamp == new.timestamp) = none := by
    rw [List.find?_eq_none]
    intro x hx
    have hx₂ := (List.any_eq_false.mp hguard) x hx
    simpa using hx₂
  rw [h1]
  simp

/-- A record for `(p, ts)` exists and has succeeded. -/
def SucceededRowSafe (p ts : String) (s : RunnerState) : Prop :=
  ∃ row, row ∈ s.db ∧ row.project = p ∧ row.timestamp = ts ∧
    row.status = .succeeded

theorem sysStep_succeeded_frozen (defs : MigrationDefs) {p ts : String}
    {sa : RunnerState} {evs : List Event} {sb : RunnerState}
    (hproj : sa.project = p) (hwf : DbWF sa.db)
    (hsafe : SucceededRowSafe p ts sa)
    (hstep : SysStep defs sa evs sb) :
    sb.project = p ∧ DbWF sb.db ∧ SucceededRowSafe p ts sb ∧
      ∀ lo hi, Event.runBatch p ts lo hi ∉ evs := by
  obtain ⟨row, hrowmem, hrowp, hrowt, hrowst⟩ := hsafe
  cases hstep with
  | enqueue identifier =>
    rw [enqueueResult]
    split
    next s₁ h =>
      obtain ⟨file, md, hfile, hdef, hdup, rfl⟩ := enqueueBatchedMigration_ok_inv h
      refine ⟨hproj, ?_, ?_, fun lo hi hc => by cases hc⟩
      · refine dbwf_insert hwf (fun r hr => nextId_fresh hr) ?_
        rintro r hr ⟨hap, hat⟩
        have hr₂ := (List.any_eq_false.mp hdup) r hr
        apply hr₂
        simp only [Bool.and_eq_true, beq_iff_eq]
        exact ⟨hap, hat⟩
      · exact ⟨row, List.mem_append_left _ hrowmem, hrowp, hrowt, hrowst⟩
    next e h =>
      exact ⟨hproj, hwf, ⟨row, hrowmem, hrowp, hrowt, hrowst⟩,
        fun lo hi hc => by cases hc⟩
  | finalize identifier =>
    by_cases hts : timestampOf identifier = ts
    · have hsel : selectBatchedMigrationForTimestamp sa.db sa.project
          (timestampOf identifier) = .ok row := by
        rw [hts]
        exact select_of_mem hwf hrowmem (by rw [hrowp, hproj]) hrowt
      have hfin : finalizeBatchedMigration defs sa identifier = (.ok (), sa, []) := by
        simp only [finalizeBatchedMigration, hsel, if_pos hrowst]
      rw [hfin]
      exact ⟨hproj, hwf, ⟨row, hrowmem, hrowp, hrowt, hrowst⟩,
        fun lo hi hc => by cases hc⟩
    · obtain ⟨hwf₂, hpres⟩ := finalize_db_shape defs sa identifier hwf
      have hkey : ¬(row.project = sa.project ∧
          row.timestamp = timestampOf identifier) := by
        rintro ⟨_, hbad⟩
        exact hts (by rw [← hbad, hrowt])
      refine ⟨by rw [finalize_project, hproj], hwf₂,
        ⟨row, hpres row hrowmem hkey, hrowp, hrowt, hrowst⟩, ?_⟩
      intro lo hi hc
      rcases finalize_events_shape defs sa identifier _ hc with
        ⟨i, st, hbad⟩ | ⟨lo', hi', hbad⟩
      · cases hbad
      · injection hbad with h₁ h₂ h₃ h₄
        exact hts h₂.symm
  | maybeWork lockAvailable budget =>
    obtain ⟨hwfb, hkeep⟩ := maybeWork_db_shape defs sa lockAvailable budget hwf
    have hflags := maybePerformWork_flags defs sa lockAvailable budget
    refine ⟨by rw [hflags.2.2, hproj], hwfb,
      ⟨row, hkeep row hrowmem hrowst, hrowp, hrowt, hrowst⟩, ?_⟩
    intro lo hi hc
    rcases maybeWork_events_shape defs sa lockAvailable budget _ hc with
      ⟨n, hbad⟩ | ⟨n, hbad⟩ | ⟨er, hbad⟩ |
      ⟨T, lo', hi', hbad, r₀, hr₀, hr₀p, hr₀t, hr₀st⟩
    · cases hbad
    · cases hbad
    · cases hbad
    · injection hbad with h₁ h₂ h₃ h₄
      have hr₀eq : r₀ = row := by
        refine dbwf_unique_key hwf hr₀ hrowmem ?_ ?_
        · rw [hr₀p, hproj, hrowp]
        · rw [hr₀t, ← h₂, hrowt]
      rw [hr₀eq] at hr₀st
      exact hr₀st hrowst

theorem sysSteps_succeeded_frozen (defs : MigrationDefs) {p ts : String}
    {sa : RunnerState} {evs : List Event} {sb : RunnerState}
    (hproj : sa.project = p) (hwf : DbWF sa.db)
    (hsafe : SucceededRowSafe p ts sa)
    (hsteps : SysSteps defs sa evs sb) :
    sb.project = p ∧ DbWF sb.db ∧ SucceededRowSafe p ts sb ∧
      ∀ lo hi, Event.runBatch p ts lo hi ∉ evs := by
  induction hsteps with
  | refl => exact ⟨hproj, hwf, hsafe, fun lo hi hc => by cases hc⟩
  | tail evs s₂ evs' s₃ hsteps hstep ih =>
    obtain ⟨ih₁, ih₂, ih₃, ih₄⟩ := ih
    obtain ⟨h₁, h₂, h₃, h₄⟩ := sysStep_succeeded_frozen defs ih₁ ih₂ ih₃ hstep
    refine ⟨h₁, h₂, h₃, ?_⟩
    intro lo hi hc
    rw [List.mem_append] at hc
    rcases hc with hc | hc
    · exact ih₄ lo hi hc
    · exact h₄ lo hi hc

/-- The record a successful enqueue creates. -/
def enqueuedRow (db : List BatchedMigrationRow) (project : String)
    (file : MigrationFile) (p : MigrationParameters) : BatchedMigrationRow :=
  { id := nextId db, project := project, filename := file.filename,
    timestamp := file.timestamp, batch_size := p.batchSize.getD 1000,
    min_value := p.min.getD 1, max_value := p.max.getD (p.min.getD 1),
    cursor := p.min.getD 1 - 1, status := .pending }

/-- A migration definition reporting no work (`max` is null). -/
def noWorkMigration : BatchedMigration :=
  ⟨⟨some 1, none, some 1000⟩, fun _ _ => true⟩

/-- Registry mapping every timestamp to `noWorkMigration`. -/
def noWorkDefs : MigrationDefs := fun _ => some noWorkMigration

/-- The state after enqueuing `noWorkMigration` into `exampleState`. -/
def noWorkState : RunnerState :=
  { project := "pl", migrationFiles := [exampleFile], running := false,
    aborted := false,
    db := [enqueuedRow [] "pl" exampleFile noWorkMigration.parameters] }

/-- The record the visible program actually creates for a no-work
enqueue into an empty store. -/
def noWorkRow : BatchedMigrationRow :=
  enqueuedRow [] "pl" exampleFile noWorkMigration.parameters

/-- The no-work record once the claim query has moved it to `running`. -/
def noWorkRunningRow : BatchedMigrationRow :=
  { noWorkRow with status := .running }

/-- The state after the claim query has claimed the no-work record. -/
def noWorkClaimedState : RunnerState :=
  { noWorkState with db := [noWorkRunningRow] }

/-- If the claim query returns a migration whose definition file and
class resolve, every event of the batch runner's run appears in the
events of `maybePerformWork` under an available lock. -/
theorem maybePerformWork_run_events (defs : MigrationDefs) (rs : RunnerState)
    (budget : Option Nat) (migration : BatchedMigrationRow) (s₁ : RunnerState)
    (file : MigrationFile) (md : BatchedMigration) (e : Event)
    (hsel : selectOrStartRunnableMigration rs = (some migration, s₁))
    (hfile : getMigrationForIdentifier s₁ migration.timestamp = some file)
    (hdef : defs file.timestamp = some md)
    (he : e ∈ (runMigration md migration budget).events) :
    e ∈ (maybePerformWork defs rs true budget).2.2 := by
  simp only [maybePerformWork, hsel, hfile, hdef, if_true]
  exact List.mem_cons_of_mem _ (List.mem_append_left _ (List.mem_append_left _ he))

/-- The batch runner invokes the batch function of the claimed no-work
record on the collapsed one-unit range `[1, 1]`. -/
theorem noWork_batch_invoked :
    Event.runBatch "pl" "20230406184103" 1 1 ∈
      (runMigration noWorkMigration noWorkRunningRow (some 60)).events := by
  rw [runMigration_step noWorkMigration noWorkRunningRow (some 60) (by decide)
    (by decide) rfl]
  exact List.mem_cons.mpr (Or.inl (by decide))

/-- C2: refuted by the visible insert — a code bug. For a definition
whose `getParameters()` reports `max = null`, `enqueueBatchedMigration`
does compute the status `succeeded` ("we can immediately mark the
migration as finished") and hands it to the insert, but the
`insert_batched_migration` SQL block has no status column, so the
record is created in the table-default status `pending`, not
`succeeded`. Evaluated at a concrete no-work enqueue: the created
record is `pending`; the claim query then claims it as the oldest
runnable migration, and a scheduled round invokes the batch function on
the collapsed one-unit range `[1, 1]` — against the claimed zero batch
invocations. -/
theorem enqueue_no_work_bug :
    noWorkMigration.parameters.max = none ∧
    (if noWorkMigration.parameters.max = none then
        BatchedMigrationStatus.succeeded else .pending) = .succeeded ∧
    enqueueBatchedMigration noWorkDefs exampleState "20230406184103_backfill" =
      .ok noWorkState ∧
    selectBatchedMigrationForTimestamp noWorkState.db "pl" "20230406184103" =
      .ok noWorkRow ∧
    noWorkRow.status = .pending ∧
    selectOrStartRunnableMigration noWorkState =
      (some noWorkRunningRow, noWorkClaimedState) ∧
    Event.runBatch "pl" "20230406184103" 1 1 ∈
      (maybePerformWork noWorkDefs noWorkState true (some 60)).2.2 := by
  refine ⟨rfl, rfl, by decide, by decide, rfl, by decide, ?_⟩
  exact maybePerformWork_run_events noWorkDefs noWorkState (some 60)
    noWorkRunningRow noWorkClaimedState exampleFile noWorkMigration
    (Event.runBatch "pl" "20230406184103" 1 1) (by decide) (by decide) rfl
    noWork_batch_invoked
